import Mathlib

/-!
Verification of the memo-transcriber core against its design document.

Texts are modelled as `List Char`; Python floats are modelled as exact
rationals (`ℚ`) or reals (`ℝ` where a square root occurs).  Each embedded
definition mirrors one function of the repository; the doc comment names it.
-/

namespace MemoTranscriber

/-! ## Embedding of `comparison.py` -/

/-- ASCII whitespace, as matched by Python `str.split()` and the regex
class `\s` (restricted to the ASCII range). -/
def pyIsSpace (c : Char) : Bool :=
  c = ' ' || c = '\t' || c = '\n' || c = '\r' || c = '\x0b' || c = '\x0c'

/-- Python `str.lower` on a single character (ASCII range). -/
def lowerChar (c : Char) : Char :=
  if 65 ≤ c.toNat ∧ c.toNat ≤ 90 then Char.ofNat (c.toNat + 32) else c

/-- The regex class `\w` (word character), ASCII range: letters, digits
and underscore. -/
def isWordChar (c : Char) : Bool :=
  c.isAlpha || c.isDigit || c = '_'

/-- Python `str.split()` (no separator argument): split on runs of
whitespace, discarding empty pieces. -/
def splitWS : List Char → List (List Char)
  | [] => []
  | c :: cs =>
    if pyIsSpace c then splitWS cs
    else (c :: cs.takeWhile (fun x => !pyIsSpace x)) ::
      splitWS (cs.dropWhile (fun x => !pyIsSpace x))
termination_by l => l.length
decreasing_by
  · simp
  · simp only [List.length_cons]
    exact Nat.lt_succ_of_le ((List.dropWhile_sublist _).length_le)

/-- Python `' '.join(words)`. -/
def joinWords : List (List Char) → List Char
  | [] => []
  | [w] => w
  | w :: v :: vs => w ++ ' ' :: joinWords (v :: vs)

/-- Embeds `normalize_text` of `comparison.py`: lowercase, optionally drop
every character that is neither a word character nor whitespace
(`re.sub(r'[^\w\s]', '', text)`), then `' '.join(text.split())`. -/
def normalize_text (text : List Char) (remove_punctuation : Bool) : List Char :=
  let lowered := text.map lowerChar
  let kept :=
    if remove_punctuation then lowered.filter (fun c => isWordChar c || pyIsSpace c)
    else lowered
  joinWords (splitWS kept)

/-- Embeds the edit-distance matrix `d` built by `calculate_wer` (and, at
character granularity, by `calculate_cer`): `d[i][0] = i`, `d[0][j] = j`,
`d[i][j] = d[i-1][j-1]` on a match, else
`min(d[i-1][j-1]+1, d[i][j-1]+1, d[i-1][j]+1)`.  Out-of-range indices read
the default element, which never happens for indices within the table. -/
def distTable {α : Type} [DecidableEq α] (dflt : α) (r h : List α) : Nat → Nat → Nat
  | 0, j => j
  | i + 1, 0 => i + 1
  | i + 1, j + 1 =>
    if r.getD i dflt = h.getD j dflt then distTable dflt r h i j
    else
      Nat.min (distTable dflt r h i j + 1)
        (Nat.min (distTable dflt r h (i + 1) j + 1) (distTable dflt r h i (j + 1) + 1))
termination_by i j => (i, j)

/-- One entry of the `options` list built in `calculate_wer`'s backtracking:
the Python tuple `(d-value, op-label, new_i, new_j)`. -/
structure BTOption where
  val : Nat
  label : String
  ni : Nat
  nj : Nat
deriving DecidableEq

/-- Python `<` on strings: lexicographic comparison by code point,
character by character (kernel-computable form of the string order). -/
def pyStrLt : List Char → List Char → Bool
  | [], [] => false
  | [], _ :: _ => true
  | _ :: _, [] => false
  | a :: as, b :: bs => if a = b then pyStrLt as bs else decide (a < b)

/-- Python `<` on the tuples of `BTOption`: lexicographic on value, then
label (string order), then the two indices. -/
def btOptLtB (a b : BTOption) : Bool :=
  a.val < b.val ||
    (a.val = b.val &&
      (pyStrLt a.label.data b.label.data ||
        (a.label = b.label && (a.ni < b.ni || (a.ni = b.ni && a.nj < b.nj)))))

/-- Python `min` over a non-empty list: scan left keeping the current
minimum, replacing it only on a strictly smaller element (first minimum
wins ties). -/
def pyMin (x : BTOption) : List BTOption → BTOption
  | [] => x
  | y :: ys => pyMin (if btOptLtB y x then y else x) ys

/-- The choice `min(options)` makes in `calculate_wer`'s backtracking at a
non-matching cell, with the options listed in source order
`[(vs,'sub',i-1,j-1), (vd,'del',i-1,j), (vi,'ins',i,j-1)]`; here the cell
is `(i+1, j+1)` in table coordinates. -/
def btChoice (vs vd vi i j : Nat) : BTOption :=
  pyMin ⟨vs, "sub", i, j⟩ [⟨vd, "del", i, j + 1⟩, ⟨vi, "ins", i + 1, j⟩]

/-- Embeds the backtracking loop of `calculate_wer`, counting
(substitutions, deletions, insertions) from cell `(i, j)` down to `(0,0)`. -/
def backtrack (r h : List (List Char)) : Nat → Nat → Nat × Nat × Nat
  | 0, 0 => (0, 0, 0)
  | 0, j + 1 =>
    let p := backtrack r h 0 j
    (p.1, p.2.1, p.2.2 + 1)
  | i + 1, 0 =>
    let p := backtrack r h i 0
    (p.1, p.2.1 + 1, p.2.2)
  | i + 1, j + 1 =>
    if r.getD i [] = h.getD j [] then backtrack r h i j
    else
      let vs := distTable [] r h i j
      let vd := distTable [] r h i (j + 1)
      let vi := distTable [] r h (i + 1) j
      let best := btChoice vs vd vi i j
      if best.label = "sub" then
        let p := backtrack r h i j
        (p.1 + 1, p.2.1, p.2.2)
      else if best.label = "del" then
        let p := backtrack r h i (j + 1)
        (p.1, p.2.1 + 1, p.2.2)
      else
        let p := backtrack r h (i + 1) j
        (p.1, p.2.1, p.2.2 + 1)
termination_by i j => (i, j)

/-- Result dictionary of `calculate_wer`. -/
structure WerResult where
  wer : ℚ
  substitutions : Nat
  deletions : Nat
  insertions : Nat
  total_edits : Nat
  reference_words : Nat
deriving DecidableEq

/-- Embeds `calculate_wer` of `comparison.py`. -/
def calculate_wer (reference hypothesis : List Char) : WerResult :=
  let ref_words := splitWS reference
  let hyp_words := splitWS hypothesis
  let n := ref_words.length
  let m := hyp_words.length
  let c := backtrack ref_words hyp_words n m
  { wer := if 0 < n then ((c.1 + c.2.1 + c.2.2 : Nat) : ℚ) / (n : ℚ) else 0
    substitutions := c.1
    deletions := c.2.1
    insertions := c.2.2
    total_edits := c.1 + c.2.1 + c.2.2
    reference_words := n }

/-- Embeds `calculate_cer` of `comparison.py`: character-level edit
distance divided by the reference length. -/
def calculate_cer (reference hypothesis : List Char) : ℚ :=
  let n := reference.length
  let d := distTable ' ' reference hypothesis n hypothesis.length
  if 0 < n then (d : ℚ) / (n : ℚ) else 0

/-- Embeds `calculate_jaccard_similarity` of `comparison.py`. -/
def calculate_jaccard_similarity (reference hypothesis : List Char) : ℚ :=
  let R := (splitWS reference).toFinset
  let H := (splitWS hypothesis).toFinset
  if R = ∅ ∧ H = ∅ then 1
  else if 0 < (R ∪ H).card then ((R ∩ H).card : ℚ) / ((R ∪ H).card : ℚ)
  else 0

/-- Embeds `calculate_cosine_similarity` of `comparison.py`; the word
frequency vectors are indexed by the union vocabulary, and Python's float
arithmetic (including `math.sqrt`) is modelled by exact real arithmetic. -/
noncomputable def calculate_cosine_similarity (reference hypothesis : List Char) : ℝ :=
  let rw := splitWS reference
  let hw := splitWS hypothesis
  let allWords := rw.toFinset ∪ hw.toFinset
  if allWords = ∅ then 1
  else
    let dot : ℝ := ∑ w ∈ allWords, (rw.count w : ℝ) * (hw.count w : ℝ)
    let rm : ℝ := Real.sqrt (∑ w ∈ allWords, (rw.count w : ℝ) * (rw.count w : ℝ))
    let hm : ℝ := Real.sqrt (∑ w ∈ allWords, (hw.count w : ℝ) * (hw.count w : ℝ))
    if rm = 0 ∨ hm = 0 then 0
    else dot / (rm * hm)

/-- Result dictionary of `compare_transcriptions`. -/
structure ComparisonMetrics where
  wer : ℚ
  cer : ℚ
  substitutions : Nat
  deletions : Nat
  insertions : Nat
  total_edits : Nat
  word_count_ref : Nat
  word_count_hyp : Nat
  word_count_diff : Int
  word_count_diff_pct : ℚ
  jaccard_similarity : ℚ
  cosine_similarity : ℝ

/-- Embeds `compare_transcriptions` of `comparison.py`: normalize both
texts once (if requested), then apply every metric to the normalized
texts. -/
noncomputable def compare_transcriptions (reference_text hypothesis_text : List Char)
    (normalize : Bool) : ComparisonMetrics :=
  let ref_normalized := if normalize then normalize_text reference_text true else reference_text
  let hyp_normalized := if normalize then normalize_text hypothesis_text true else hypothesis_text
  let wer_results := calculate_wer ref_normalized hyp_normalized
  let cer := calculate_cer ref_normalized hyp_normalized
  let jaccard := calculate_jaccard_similarity ref_normalized hyp_normalized
  let cosine := calculate_cosine_similarity ref_normalized hyp_normalized
  let ref_word_count := (splitWS ref_normalized).length
  let hyp_word_count := (splitWS hyp_normalized).length
  let word_count_diff : Int := (hyp_word_count : Int) - (ref_word_count : Int)
  { wer := wer_results.wer
    cer := cer
    substitutions := wer_results.substitutions
    deletions := wer_results.deletions
    insertions := wer_results.insertions
    total_edits := wer_results.total_edits
    word_count_ref := ref_word_count
    word_count_hyp := hyp_word_count
    word_count_diff := word_count_diff
    word_count_diff_pct :=
      if 0 < ref_word_count then (word_count_diff : ℚ) / (ref_word_count : ℚ) * 100 else 0
    jaccard_similarity := jaccard
    cosine_similarity := cosine }

/-! ## Character and tokenization lemmas -/

/-- Lowercasing a character twice is the same as doing it once. -/
theorem lowerChar_idem (c : Char) : lowerChar (lowerChar c) = lowerChar c := by
  unfold lowerChar
  by_cases h : 65 ≤ c.toNat ∧ c.toNat ≤ 90
  · rw [if_pos h]
    have ht : (Char.ofNat (c.toNat + 32)).toNat = c.toNat + 32 := by
      have hv : (c.toNat + 32).isValidChar := by left; omega
      unfold Char.ofNat
      split
      · rfl
      · omega
    have hcond : ¬(65 ≤ (Char.ofNat (c.toNat + 32)).toNat ∧
        (Char.ofNat (c.toNat + 32)).toNat ≤ 90) := by
      rw [ht]; omega
    rw [if_neg hcond]
  · rw [if_neg h, if_neg h]

/-- Every word produced by `splitWS` is non-empty and free of whitespace. -/
theorem splitWS_sound (l : List Char) :
    ∀ w ∈ splitWS l, w ≠ [] ∧ ∀ c ∈ w, pyIsSpace c = false := by
  induction l using splitWS.induct with
  | case1 => intro w hw; simp [splitWS] at hw
  | case2 c cs hc ih =>
    intro w hw
    rw [splitWS, if_pos hc] at hw
    exact ih w hw
  | case3 c cs hc ih =>
    intro w hw
    rw [splitWS, if_neg hc] at hw
    rcases List.mem_cons.mp hw with rfl | hw
    · refine ⟨by simp, ?_⟩
      intro x hx
      rcases List.mem_cons.mp hx with rfl | hx
      · simpa using hc
      · have := List.mem_takeWhile_imp hx
        simpa using this
    · exact ih w hw

/-- Each character of each word of `splitWS l` comes from `l`. -/
theorem splitWS_mem_subset (l : List Char) :
    ∀ w ∈ splitWS l, ∀ c ∈ w, c ∈ l := by
  induction l using splitWS.induct with
  | case1 => intro w hw; simp [splitWS] at hw
  | case2 c cs hc ih =>
    intro w hw x hx
    rw [splitWS, if_pos hc] at hw
    exact List.mem_cons_of_mem _ (ih w hw x hx)
  | case3 c cs hc ih =>
    intro w hw x hx
    rw [splitWS, if_neg hc] at hw
    rcases List.mem_cons.mp hw with rfl | hw
    · rcases List.mem_cons.mp hx with rfl | hx
      · exact List.mem_cons_self _ _
      · exact List.mem_cons_of_mem _ ((List.takeWhile_sublist _).subset hx)
    · exact List.mem_cons_of_mem _ ((List.dropWhile_sublist _).subset (ih w hw x hx))

/-- Characters of a joined word list are the inserted separators or word
characters. -/
theorem mem_joinWords {ws : List (List Char)} {c : Char} (hc : c ∈ joinWords ws) :
    c = ' ' ∨ ∃ w ∈ ws, c ∈ w := by
  induction ws with
  | nil => simp [joinWords] at hc
  | cons w ws ih =>
    cases ws with
    | nil =>
      right
      exact ⟨w, List.mem_cons_self _ _, by simpa [joinWords] using hc⟩
    | cons v vs =>
      rw [joinWords] at hc
      rcases List.mem_append.mp hc with h | h
      · exact Or.inr ⟨w, List.mem_cons_self _ _, h⟩
      · rcases List.mem_cons.mp h with rfl | h
        · exact Or.inl rfl
        · rcases ih h with h | ⟨u, hu, hcu⟩
          · exact Or.inl h
          · exact Or.inr ⟨u, List.mem_cons_of_mem _ hu, hcu⟩

/-- `takeWhile` walks past a block that satisfies the predicate. -/
theorem takeWhile_append_all {α : Type} {p : α → Bool} {xs ys : List α}
    (h : ∀ x ∈ xs, p x = true) : (xs ++ ys).takeWhile p = xs ++ ys.takeWhile p := by
  induction xs with
  | nil => simp
  | cons a as ih =>
    rw [List.cons_append, List.takeWhile_cons, if_pos (h a (List.mem_cons_self a as)),
      ih (fun x hx => h x (List.mem_cons_of_mem _ hx)), List.cons_append]

/-- `dropWhile` drops a whole block that satisfies the predicate. -/
theorem dropWhile_append_all {α : Type} {p : α → Bool} {xs ys : List α}
    (h : ∀ x ∈ xs, p x = true) : (xs ++ ys).dropWhile p = ys.dropWhile p := by
  induction xs with
  | nil => simp
  | cons a as ih =>
    rw [List.cons_append, List.dropWhile_cons, if_pos (h a (List.mem_cons_self a as)),
      ih (fun x hx => h x (List.mem_cons_of_mem _ hx))]

/-- Splitting the join of non-empty whitespace-free words recovers them. -/
theorem splitWS_joinWords : ∀ ws : List (List Char),
    (∀ w ∈ ws, w ≠ [] ∧ ∀ c ∈ w, pyIsSpace c = false) → splitWS (joinWords ws) = ws := by
  intro ws
  induction ws with
  | nil => intro _; simp [joinWords, splitWS]
  | cons w ws ih =>
    intro h
    obtain ⟨hne, hns⟩ := h w (List.mem_cons_self _ _)
    obtain ⟨a, as, rfl⟩ := List.exists_cons_of_ne_nil hne
    have hns' : ∀ x ∈ as, (!pyIsSpace x) = true := by
      intro x hx
      simp [hns x (List.mem_cons_of_mem _ hx)]
    have ha : pyIsSpace a = false := hns a (List.mem_cons_self _ _)
    cases ws with
    | nil =>
      rw [joinWords, splitWS, if_neg (by simp [ha]),
        List.takeWhile_eq_self_iff.mpr hns', List.dropWhile_eq_nil_iff.mpr hns']
      simp [splitWS]
    | cons v vs =>
      rw [joinWords, List.cons_append, splitWS, if_neg (by simp [ha])]
      have h1 : (as ++ ' ' :: joinWords (v :: vs)).takeWhile (fun x => !pyIsSpace x) = as := by
        rw [takeWhile_append_all hns', List.takeWhile_cons]
        simp [pyIsSpace]
      have h2 : (as ++ ' ' :: joinWords (v :: vs)).dropWhile (fun x => !pyIsSpace x) =
          ' ' :: joinWords (v :: vs) := by
        rw [dropWhile_append_all hns', List.dropWhile_cons]
        simp [pyIsSpace]
      rw [h1, h2]
      congr 1
      rw [splitWS, if_pos (by simp [pyIsSpace])]
      exact ih (fun u hu => h u (List.mem_cons_of_mem _ hu))

/-- Splitting and rejoining, then splitting again, is just splitting. -/
theorem joinWords_splitWS_round (l : List Char) :
    splitWS (joinWords (splitWS l)) = splitWS l :=
  splitWS_joinWords _ (splitWS_sound l)

/-- Characters of `joinWords (splitWS k)` are spaces or characters of `k`. -/
theorem mem_normalize_core {k : List Char} {c : Char} (hc : c ∈ joinWords (splitWS k)) :
    c = ' ' ∨ c ∈ k := by
  rcases mem_joinWords hc with h | ⟨w, hw, hcw⟩
  · exact Or.inl h
  · exact Or.inr (splitWS_mem_subset k w hw c hcw)

/-- Normalization is a projection: applying `normalize_text` to its own
output changes nothing, for either punctuation setting. -/
theorem normalize_text_idem (t : List Char) (rp : Bool) :
    normalize_text (normalize_text t rp) rp = normalize_text t rp := by
  cases rp with
  | false =>
    have hdef : normalize_text t false = joinWords (splitWS (t.map lowerChar)) := rfl
    have hlow : (normalize_text t false).map lowerChar = normalize_text t false := by
      refine (List.map_congr_left ?_).trans (List.map_id _)
      intro c hc
      rw [hdef] at hc
      rcases mem_normalize_core hc with rfl | hc
      · exact (by decide)
      · obtain ⟨x, _, rfl⟩ := List.mem_map.mp hc
        exact lowerChar_idem x
    show joinWords (splitWS ((normalize_text t false).map lowerChar)) = normalize_text t false
    rw [hlow, hdef, joinWords_splitWS_round]
  | true =>
    have hdef : normalize_text t true =
        joinWords (splitWS ((t.map lowerChar).filter (fun c => isWordChar c || pyIsSpace c))) :=
      rfl
    have hlow : (normalize_text t true).map lowerChar = normalize_text t true := by
      refine (List.map_congr_left ?_).trans (List.map_id _)
      intro c hc
      rw [hdef] at hc
      rcases mem_normalize_core hc with rfl | hc
      · exact (by decide)
      · have hc' : c ∈ t.map lowerChar := List.mem_of_mem_filter hc
        obtain ⟨x, _, rfl⟩ := List.mem_map.mp hc'
        exact lowerChar_idem x
    have hfil : (normalize_text t true).filter (fun c => isWordChar c || pyIsSpace c) =
        normalize_text t true := by
      rw [List.filter_eq_self]
      intro c hc
      rw [hdef] at hc
      rcases mem_normalize_core hc with rfl | hc
      · exact (by decide)
      · exact (List.mem_filter.mp hc).2
    show joinWords (splitWS (((normalize_text t true).map lowerChar).filter
        (fun c => isWordChar c || pyIsSpace c))) = normalize_text t true
    rw [hlow, hfil, hdef, joinWords_splitWS_round]

/-- C10: `normalize_text` is idempotent: for every string and for each
setting of `remove_punctuation`, normalizing twice equals normalizing
once, so `compare_transcriptions` normalizing once yields the same
metrics as normalizing any number of times. -/
theorem c10_normalize_text_idempotent (s : List Char) (remove_punctuation : Bool) :
    normalize_text (normalize_text s remove_punctuation) remove_punctuation =
      normalize_text s remove_punctuation :=
  normalize_text_idem s remove_punctuation

/-! ## Edit-distance and backtracking lemmas -/

/-- Characterization of the tuple-min over the backtracking options: on a
tie of the cell values the lexicographically least label wins, and the
label order is `del < ins < sub`. -/
theorem btChoice_eq (vs vd vi i j : Nat) :
    btChoice vs vd vi i j =
      if vd ≤ vs ∧ vd ≤ vi then ⟨vd, "del", i, j + 1⟩
      else if vi ≤ vs ∧ vi ≤ vd then ⟨vi, "ins", i + 1, j⟩
      else ⟨vs, "sub", i, j⟩ := by
  have hds : pyStrLt ("del" : String).data ("sub" : String).data = true := by decide
  have his : pyStrLt ("ins" : String).data ("sub" : String).data = true := by decide
  have hid : pyStrLt ("ins" : String).data ("del" : String).data = false := by decide
  have hidne : ("ins" : String) ≠ "del" := by decide
  simp only [btChoice, pyMin]
  split_ifs with h1 h2 h3 h4 h5 h6 h7 h8 h9 h10 h11 <;>
    simp only [btOptLtB, Bool.or_eq_true, Bool.and_eq_true, decide_eq_true_eq,
      hds, his, hid, hidne, iff_true, iff_false, false_and, and_false, or_false,
      false_or, true_and, and_true, or_true, true_or, not_or, not_and, not_lt,
      not_false_iff, Bool.false_eq_true] at * <;>
    first
      | rfl
      | (exfalso; omega)

/-- Projection of the literal option tuple. -/
theorem btOption_label (v : Nat) (s : String) (a b : Nat) :
    (BTOption.mk v s a b).label = s := rfl

/-- Total number of edit operations in a backtracking count triple. -/
def opsTotal (p : Nat × Nat × Nat) : Nat := p.1 + p.2.1 + p.2.2

/-- The first column of the backtracking only counts deletions. -/
theorem backtrack_zero_right (r h : List (List Char)) :
    ∀ i, backtrack r h i 0 = (0, i, 0) := by
  intro i
  induction i with
  | zero => simp [backtrack]
  | succ i ih => simp [backtrack, ih]

/-- The first row of the backtracking only counts insertions. -/
theorem backtrack_zero_left (r h : List (List Char)) :
    ∀ j, backtrack r h 0 j = (0, 0, j) := by
  intro j
  induction j with
  | zero => simp [backtrack]
  | succ j ih => simp [backtrack, ih]

/-- Backtracking invariant: the operations counted from cell `(i, j)` down
to the origin total exactly the table value `d[i][j]`. -/
theorem backtrack_opsTotal (r h : List (List Char)) :
    ∀ n i j, i + j ≤ n → opsTotal (backtrack r h i j) = distTable [] r h i j := by
  intro n
  induction n with
  | zero =>
    intro i j hij
    have hi : i = 0 := by omega
    have hj : j = 0 := by omega
    subst hi; subst hj
    simp [backtrack, distTable, opsTotal]
  | succ n ih =>
    intro i j hij
    cases i with
    | zero =>
      rw [backtrack_zero_left]
      simp [distTable, opsTotal]
    | succ i =>
      cases j with
      | zero =>
        rw [backtrack_zero_right]
        simp [distTable, opsTotal]
      | succ j =>
        by_cases hm : r.getD i [] = h.getD j []
        · simp only [backtrack, distTable]
          rw [if_pos hm, if_pos hm]
          exact ih i j (by omega)
        · have hvs := ih i j (by omega)
          have hvd := ih i (j + 1) (by omega)
          have hvi := ih (i + 1) j (by omega)
          simp only [opsTotal] at hvs hvd hvi
          simp only [backtrack, distTable]
          rw [if_neg hm, if_neg hm, btChoice_eq]
          by_cases h1 : distTable [] r h i (j + 1) ≤ distTable [] r h i j ∧
              distTable [] r h i (j + 1) ≤ distTable [] r h (i + 1) j
          · rw [if_pos h1]
            simp only [btOption_label]
            rw [if_neg (show ¬("del" : String) = "sub" by decide)]
            simp only [if_true, opsTotal, Nat.min_def]
            split_ifs <;> omega
          · rw [if_neg h1]
            by_cases h2 : distTable [] r h (i + 1) j ≤ distTable [] r h i j ∧
                distTable [] r h (i + 1) j ≤ distTable [] r h i (j + 1)
            · rw [if_pos h2]
              simp only [btOption_label]
              rw [if_neg (show ¬("ins" : String) = "sub" by decide),
                if_neg (show ¬("ins" : String) = "del" by decide)]
              simp only [opsTotal, Nat.min_def]
              split_ifs <;> omega
            · rw [if_neg h2]
              simp only [btOption_label, if_true, opsTotal, Nat.min_def]
              split_ifs <;> omega

/-- Identical word sequences backtrack diagonally with no operations. -/
theorem backtrack_diag_self (w : List (List Char)) : ∀ k, backtrack w w k k = (0, 0, 0) := by
  intro k
  induction k with
  | zero => simp [backtrack]
  | succ k ih => simp [backtrack, ih]

/-- The diagonal of the distance table of a list against itself is zero. -/
theorem distTable_diag_self {α : Type} [DecidableEq α] (dflt : α) (l : List α) :
    ∀ k, distTable dflt l l k k = 0 := by
  intro k
  induction k with
  | zero => simp [distTable]
  | succ k ih => simp [distTable, ih]

/-- WER of a text against itself is zero. -/
theorem calculate_wer_self (t : List Char) : (calculate_wer t t).wer = 0 := by
  simp only [calculate_wer]
  rw [backtrack_diag_self]
  split <;> simp

/-- CER of a text against itself is zero. -/
theorem calculate_cer_self (t : List Char) : calculate_cer t t = 0 := by
  simp only [calculate_cer]
  rw [distTable_diag_self]
  split <;> simp

/-- Jaccard similarity of a text with itself is one. -/
theorem calculate_jaccard_self (t : List Char) : calculate_jaccard_similarity t t = 1 := by
  simp only [calculate_jaccard_similarity]
  by_cases hR : (splitWS t).toFinset = (∅ : Finset (List Char))
  · rw [if_pos ⟨hR, hR⟩]
  · rw [if_neg (by tauto), Finset.union_self, Finset.inter_self]
    have hpos : 0 < (splitWS t).toFinset.card :=
      Finset.card_pos.mpr (Finset.nonempty_iff_ne_empty.mpr hR)
    rw [if_pos hpos]
    exact div_self (by exact_mod_cast hpos.ne')

/-- Cosine similarity of a text with itself is one. -/
theorem calculate_cosine_self (t : List Char) : calculate_cosine_similarity t t = 1 := by
  simp only [calculate_cosine_similarity, Finset.union_self]
  by_cases hA : (splitWS t).toFinset = (∅ : Finset (List Char))
  · rw [if_pos hA]
  · rw [if_neg hA]
    have hpos : 0 < ∑ w ∈ (splitWS t).toFinset,
        ((splitWS t).count w : ℝ) * ((splitWS t).count w : ℝ) := by
      apply Finset.sum_pos'
      · intro w _
        positivity
      · obtain ⟨w, hw⟩ := Finset.nonempty_iff_ne_empty.mpr hA
        refine ⟨w, hw, ?_⟩
        have hcount : 0 < (splitWS t).count w :=
          List.count_pos_iff.mpr (List.mem_toFinset.mp hw)
        have hc : (0 : ℝ) < ((splitWS t).count w : ℝ) := by exact_mod_cast hcount
        exact mul_pos hc hc
    have hs : Real.sqrt (∑ w ∈ (splitWS t).toFinset,
        ((splitWS t).count w : ℝ) * ((splitWS t).count w : ℝ)) ≠ 0 :=
      ne_of_gt (Real.sqrt_pos.mpr hpos)
    rw [if_neg (by push_neg; exact ⟨hs, hs⟩), Real.mul_self_sqrt hpos.le]
    exact div_self (ne_of_gt hpos)

/-- Backtracking variant following the design document's words: on a value
tie prefer substitution, then deletion, then insertion.  Used only to
compare the claimed tie-break order against the code's. -/
def backtrackSpecTie (r h : List (List Char)) : Nat → Nat → Nat × Nat × Nat
  | 0, 0 => (0, 0, 0)
  | 0, j + 1 =>
    let p := backtrackSpecTie r h 0 j
    (p.1, p.2.1, p.2.2 + 1)
  | i + 1, 0 =>
    let p := backtrackSpecTie r h i 0
    (p.1, p.2.1 + 1, p.2.2)
  | i + 1, j + 1 =>
    if r.getD i [] = h.getD j [] then backtrackSpecTie r h i j
    else
      let vs := distTable [] r h i j
      let vd := distTable [] r h i (j + 1)
      let vi := distTable [] r h (i + 1) j
      if vs ≤ vd ∧ vs ≤ vi then
        let p := backtrackSpecTie r h i j
        (p.1 + 1, p.2.1, p.2.2)
      else if vd ≤ vi then
        let p := backtrackSpecTie r h i (j + 1)
        (p.1, p.2.1 + 1, p.2.2)
      else
        let p := backtrackSpecTie r h (i + 1) j
        (p.1, p.2.1, p.2.2 + 1)
termination_by i j => (i, j)

/-- C2 counterexample: on reference "a b" and hypothesis "b a" the first
backtracking step is a value tie among substitution, deletion and
insertion; the code picks deletion then insertion (one of each), while
the claimed substitution-first rule would count two substitutions, so the
claimed tie-break order is not the code's. -/
theorem c2_counterexample :
    (calculate_wer ['a', ' ', 'b'] ['b', ' ', 'a']).substitutions = 0 ∧
    (calculate_wer ['a', ' ', 'b'] ['b', ' ', 'a']).deletions = 1 ∧
    (calculate_wer ['a', ' ', 'b'] ['b', ' ', 'a']).insertions = 1 ∧
    backtrackSpecTie (splitWS ['a', ' ', 'b']) (splitWS ['b', ' ', 'a']) 2 2 = (2, 0, 0) := by
  have h1 : splitWS ['a', ' ', 'b'] = [['a'], ['b']] := by simp [splitWS, pyIsSpace]
  have h2 : splitWS ['b', ' ', 'a'] = [['b'], ['a']] := by simp [splitWS, pyIsSpace]
  refine ⟨?_, ?_, ?_, ?_⟩ <;>
    simp [calculate_wer, h1, h2, backtrack, backtrackSpecTie, distTable, btChoice,
      pyMin, btOptLtB, pyStrLt, List.getD]

/-- C2 amended: at each non-matching backtracking step the operation
chosen by `min(options)` is one whose predecessor cell has the minimum
value, but value ties are broken by Python's tuple comparison through the
label order deletion first, then insertion, then substitution — not
substitution first as claimed. -/
theorem c2_tie_break_order (vs vd vi i j : Nat) :
    btChoice vs vd vi i j =
      if vd ≤ vs ∧ vd ≤ vi then ⟨vd, "del", i, j + 1⟩
      else if vi ≤ vs ∧ vi ≤ vd then ⟨vi, "ins", i + 1, j⟩
      else ⟨vs, "sub", i, j⟩ :=
  btChoice_eq vs vd vi i j

/-- C6: the substitution, deletion and insertion counts produced by
`calculate_wer`'s backtracking sum exactly to the edit distance
`d[N][M]`, the returned WER is non-negative, and for a non-empty
reference the WER equals `d[N][M] / N`. -/
theorem c6_wer_counts_sum_to_distance (reference hypothesis : List Char) :
    (calculate_wer reference hypothesis).substitutions +
        (calculate_wer reference hypothesis).deletions +
        (calculate_wer reference hypothesis).insertions =
      distTable [] (splitWS reference) (splitWS hypothesis)
        (splitWS reference).length (splitWS hypothesis).length ∧
    0 ≤ (calculate_wer reference hypothesis).wer ∧
    (0 < (splitWS reference).length →
      (calculate_wer reference hypothesis).wer =
        (distTable [] (splitWS reference) (splitWS hypothesis)
            (splitWS reference).length (splitWS hypothesis).length : ℚ) /
          ((splitWS reference).length : ℚ)) := by
  have hsum := backtrack_opsTotal (splitWS reference) (splitWS hypothesis)
    ((splitWS reference).length + (splitWS hypothesis).length)
    (splitWS reference).length (splitWS hypothesis).length (le_refl _)
  simp only [opsTotal] at hsum
  refine ⟨by simpa [calculate_wer] using hsum, ?_, ?_⟩
  · simp only [calculate_wer]
    split
    · positivity
    · exact le_refl 0
  · intro hn
    simp only [calculate_wer]
    rw [if_pos hn, hsum]

/-- Witness for C6: on reference "a b" and hypothesis "b" the WER equals
the edit distance over the reference word count. -/
theorem c6_wer_counts_sum_to_distance_witness :
    0 < (splitWS ['a', ' ', 'b']).length ∧
    (calculate_wer ['a', ' ', 'b'] ['b']).wer =
      (distTable [] (splitWS ['a', ' ', 'b']) (splitWS ['b'])
          (splitWS ['a', ' ', 'b']).length (splitWS ['b']).length : ℚ) /
        ((splitWS ['a', ' ', 'b']).length : ℚ) :=
  ⟨by simp [splitWS, pyIsSpace],
    (c6_wer_counts_sum_to_distance ['a', ' ', 'b'] ['b']).2.2 (by simp [splitWS, pyIsSpace])⟩

/-- C7: comparing any non-empty text with itself (normalization enabled)
yields WER 0, CER 0, Jaccard similarity 1 and cosine similarity 1 in the
exact-arithmetic model of Python floats — including texts whose
normalization is empty. -/
theorem c7_compare_identity (X : List Char) (hX : X ≠ []) :
    (compare_transcriptions X X true).wer = 0 ∧
    (compare_transcriptions X X true).cer = 0 ∧
    (compare_transcriptions X X true).jaccard_similarity = 1 ∧
    (compare_transcriptions X X true).cosine_similarity = 1 := by
  refine ⟨?_, ?_, ?_, ?_⟩
  · exact calculate_wer_self (normalize_text X true)
  · exact calculate_cer_self (normalize_text X true)
  · exact calculate_jaccard_self (normalize_text X true)
  · exact calculate_cosine_self (normalize_text X true)

/-- Witness for C7 at the punctuation-only text "!?", whose normalization
is empty. -/
theorem c7_compare_identity_witness :
    (['!', '?'] ≠ ([] : List Char)) ∧
    ((compare_transcriptions ['!', '?'] ['!', '?'] true).wer = 0 ∧
      (compare_transcriptions ['!', '?'] ['!', '?'] true).cer = 0 ∧
      (compare_transcriptions ['!', '?'] ['!', '?'] true).jaccard_similarity = 1 ∧
      (compare_transcriptions ['!', '?'] ['!', '?'] true).cosine_similarity = 1) :=
  ⟨by decide, c7_compare_identity ['!', '?'] (by decide)⟩

/-! ## Embedding of `database.py` -/

/-- The `TranscriptionRecord` dataclass of `database.py`.  Python floats
are rationals and `Optional` fields are `Option`. -/
structure TranscriptionRecord where
  uuid : String
  plain_title : String
  folder_name : String
  file_path : String
  output_file_path : String
  transcription : String
  status : String
  error_message : Option String := none
  duration_seconds : Option ℚ := none
  recording_date : Option String := none
  processed_at : Option String := none
  file_hash : Option String := none
  model_used : Option String := none
  processing_time_seconds : Option ℚ := none
deriving DecidableEq

/-- One stored row of the `transcriptions` table: the fourteen
record-shaped columns plus the `is_reference` column (INTEGER DEFAULT 0)
declared by `init_database`. -/
structure TranscriptionsRow where
  record : TranscriptionRecord
  is_reference : Int := 0
deriving DecidableEq

/-- Column names of the `transcriptions` table as created by
`MemoDatabase.init_database`; a `SELECT *` row dictionary carries exactly
these keys. -/
def transcriptionsTableColumns : List String :=
  ["uuid", "plain_title", "folder_name", "file_path", "output_file_path",
   "transcription", "status", "error_message", "duration_seconds",
   "recording_date", "processed_at", "file_hash", "model_used",
   "processing_time_seconds", "is_reference"]

/-- Constructor-parameter names of the `TranscriptionRecord` dataclass:
`TranscriptionRecord(**kwargs)` accepts exactly these keywords and raises
`TypeError` on any other keyword. -/
def transcriptionRecordFields : List String :=
  ["uuid", "plain_title", "folder_name", "file_path", "output_file_path",
   "transcription", "status", "error_message", "duration_seconds",
   "recording_date", "processed_at", "file_hash", "model_used",
   "processing_time_seconds"]

/-- Embeds `MemoDatabase.get_transcription`: select the row with the given
uuid (primary key, so at most one row), and when one is found build
`TranscriptionRecord(**dict(row))`.  The construction succeeds only when
every key of the row dictionary is a constructor parameter of the
dataclass; otherwise Python raises `TypeError`. -/
def get_transcription (table : List TranscriptionsRow) (uuid : String) :
    Except String (Option TranscriptionRecord) :=
  match table.find? (fun row => row.record.uuid = uuid) with
  | none => Except.ok none
  | some row =>
    if transcriptionsTableColumns.all (fun k => transcriptionRecordFields.contains k) then
      Except.ok (some row.record)
    else
      Except.error "TypeError: unexpected keyword argument"

/-- A well-formed stored row, as `save_transcription` would produce it
(every record column set, `is_reference` left at its default 0). -/
def c1SampleRow : TranscriptionsRow :=
  { record :=
      { uuid := "m1", plain_title := "Memo", folder_name := "Notes",
        file_path := "rec/m1.m4a", output_file_path := "Notes/Memo.txt",
        transcription := "hello", status := "success" }
    is_reference := 0 }

/-- C1 (code bug): on a database holding a well-formed row, Get raises
`TypeError` instead of returning the stored record, because the
`SELECT *` row carries the `is_reference` column, which is not a field of
the `TranscriptionRecord` dataclass; only the NotFound half of the claim
holds. -/
theorem c1_get_transcription_raises :
    get_transcription [c1SampleRow] "m1" =
      Except.error "TypeError: unexpected keyword argument" ∧
    get_transcription [] "m1" = Except.ok none :=
  ⟨rfl, rfl⟩

/-! ## Embedding of `memo_organiser.py` -/

/-- Modelled from the spec: the source item shape consumed by the
pipeline.  `VoiceMemoFile` is imported from `memo_data` but its class
definition is not among the sources; the spec lists identifier, title,
folder, relative path, duration (seconds) and recording date, matching
the attribute reads in `memo_organiser.py`. -/
structure VoiceMemoFile where
  uuid : String
  plain_title : String
  memo_folder : String
  f_path : String
  duration_seconds : ℚ
  recording_date : String
deriving DecidableEq

/-- The reserved characters `_sanitize_filename` replaces with `_`
(regex `[<>:"/\\|?*]`). -/
def isInvalidFilenameChar (c : Char) : Bool :=
  c = '<' || c = '>' || c = ':' || c = '"' || c = '/' || c = '\\' ||
    c = '|' || c = '?' || c = '*'

/-- Python `str.strip('. ')`: remove leading and trailing dots and
spaces. -/
def stripDotsSpaces (s : List Char) : List Char :=
  ((s.dropWhile (fun c => c = '.' || c = ' ')).reverse.dropWhile
    (fun c => c = '.' || c = ' ')).reverse

/-- Embeds `MemoOrganiser._sanitize_filename`: replace reserved characters
with underscores, strip leading/trailing dots and spaces, truncate to 200
characters. -/
def sanitize_filename (filename : List Char) : List Char :=
  let replaced := filename.map (fun c => if isInvalidFilenameChar c then '_' else c)
  let stripped := stripDotsSpaces replaced
  if stripped.length > 200 then stripped.take 200 else stripped

/-- Python `str(Path(a) / b)` for relative `b`: `Path('')` renders as the
current directory, so joining with an empty left part yields `b`
unchanged; otherwise the parts are joined with `/`. -/
def pathJoin (a b : List Char) : List Char :=
  if a = [] then b else a ++ '/' :: b

/-- Embeds `MemoOrganiser._generate_output_path`:
`Path(sanitize(folder)) / (sanitize(title) + '.txt')` as a string. -/
def generate_output_path (memo : VoiceMemoFile) : String :=
  let folder_name := sanitize_filename memo.memo_folder.data
  let file_name := sanitize_filename memo.plain_title.data ++ '.' :: 't' :: 'x' :: ['t']
  ⟨pathJoin folder_name file_name⟩

/-- C9: sanitization can erase a whole non-empty title — "..." sanitizes
to the empty string — so the file-name segment of the generated output
path can be empty and the name collapses to just the extension. -/
theorem c9_sanitize_filename_can_be_empty :
    (['.', '.', '.'] : List Char) ≠ [] ∧
    sanitize_filename ['.', '.', '.'] = [] ∧
    generate_output_path
        { uuid := "u", plain_title := "...", memo_folder := "Notes",
          f_path := "p", duration_seconds := 0, recording_date := "d" } =
      "Notes/.txt" := by
  refine ⟨by decide, by decide, by decide⟩

/-- Embeds `MemoOrganiser._should_export_file`.  The collaborators are
abstracted as oracles: `fileExists` is `file_path.exists()`; `fileHash`
is `_get_file_hash(file_path)` (`none` when the file is unreadable);
`mtime` is `file_path.stat().st_mtime` (`none` when `stat` raises
`OSError`); `parseIso` is `datetime.fromisoformat` (`none` when it raises
`ValueError`); `hashFn` is the SHA-256 fingerprint `_get_content_hash`,
kept as an arbitrary function.  Timestamps are rationals. -/
def should_export_file (hashFn : String → String) (parseIso : String → Option ℚ)
    (fileExists : Bool) (fileHash : Option String) (mtime : Option ℚ)
    (db_content db_timestamp : String) (force : Bool) : Bool × String :=
  if force then (true, "forced overwrite")
  else if ¬ fileExists then (true, "new file")
  else
    let db_hash := hashFn db_content
    if fileHash ≠ some db_hash then (true, "content changed")
    else
      match mtime with
      | none => (false, "unchanged")
      | some file_mtime =>
        match (if db_timestamp = "" then none else some db_timestamp) with
        | none => (false, "unchanged")
        | some ts =>
          match parseIso ts with
          | none => (false, "unchanged")
          | some db_time =>
            if file_mtime < db_time then (true, "database newer")
            else (false, "unchanged")

/-- The export decision as worded by the design document (§4.3 step 3):
(a) force ⇒ write; (b) missing target ⇒ write; (c) differing content
fingerprints ⇒ write; (d) else processed-at strictly newer than the
file's mtime ⇒ write; (e) otherwise skip, where any failure to read the
modification time (or to parse the stored timestamp) yields no timestamp
evidence and never forces a write. -/
def shouldExportSpec (hashFn : String → String) (parseIso : String → Option ℚ)
    (fileExists : Bool) (fileHash : Option String) (mtime : Option ℚ)
    (db_content db_timestamp : String) (force : Bool) : Bool :=
  if force then true
  else if ¬ fileExists then true
  else if fileHash ≠ some (hashFn db_content) then true
  else
    match mtime, (if db_timestamp = "" then none else parseIso db_timestamp) with
    | some m, some t => decide (m < t)
    | _, _ => false

/-- C5: for every combination of force flag, target-file state, rendered
content and stored timestamp, `_should_export_file` decides exactly per
the spec's priority order, and a failed mtime read never forces a
write. -/
theorem c5_should_export_file_follows_spec (hashFn : String → String)
    (parseIso : String → Option ℚ) (fileExists : Bool) (fileHash : Option String)
    (mtime : Option ℚ) (db_content db_timestamp : String) (force : Bool) :
    (should_export_file hashFn parseIso fileExists fileHash mtime
        db_content db_timestamp force).1 =
      shouldExportSpec hashFn parseIso fileExists fileHash mtime
        db_content db_timestamp force := by
  unfold should_export_file shouldExportSpec
  by_cases hf : force
  · simp [hf]
  · by_cases he : fileExists
    · by_cases hh : fileHash ≠ some (hashFn db_content)
      · simp [hf, he, hh]
      · rcases mtime with _ | m
        · simp [hf, he, hh]
        · by_cases hts : db_timestamp = ""
          · simp [hf, he, hh, hts]
          · rcases hp : parseIso db_timestamp with _ | t
            · simp [hf, he, hh, hts, hp]
            · by_cases hlt : m < t <;> simp [hf, he, hh, hts, hp, hlt]
    · simp [hf, he]

/-- Result of the transcription collaborator `transcribe_file`: either a
returned text or a raised exception message. -/
inductive TranscribeResult where
  | ok (text : String)
  | exc (msg : String)
deriving DecidableEq

/-- The environment of collaborators `organise_memos` talks to, abstracted
as deterministic oracles: the cache lookup `db.is_file_processed`, the
record fetch `db.get_transcription` (by intent returning the record — its
actual TypeError bug is the subject of C1), the filesystem existence
check, the transcriber, the audio-file hash, the per-call transcription
wall time, the clock and the generated batch uuid. -/
structure OrganiserEnv where
  isFileProcessed : String → String → Bool
  getTranscription : String → Option TranscriptionRecord
  fileExists : String → Bool
  transcribeFile : String → TranscribeResult
  fileHash : String → Option String
  transcribeTime : String → ℚ
  nowIso : String
  batchId : String

/-- The `OrganisedMemo` dataclass (its `date` may receive a stored
record's nullable recording date in the cache branch). -/
structure OrganisedMemo where
  file_path : String
  plain_title : String
  folder : String
  uuid : String
  transcription : String
  status : String
  date : Option String
deriving DecidableEq

/-- The Record Store calls `organise_memos` makes, in order. -/
inductive DbEvent where
  | startBatch (batch_id : String) (total_files : Nat) (model_used : String)
  | saveRec (record : TranscriptionRecord)
  | finishBatch (batch_id : String) (success_count failed_count skipped_count : Nat)
      (avg_time : ℚ)
deriving DecidableEq

/-- The loop state of `organise_memos`: the accumulator list, the trace of
store calls, and the counters of the batch telemetry. -/
structure LoopState where
  organised : List OrganisedMemo
  events : List DbEvent
  success_count : Nat
  failed_count : Nat
  skipped_count : Nat
  processed_count : Nat
  total_processing_time : ℚ
deriving DecidableEq

/-- Keyword arguments of `organise_memos`. -/
structure OrganiseArgs where
  transcribe : Bool
  skip_missing : Bool
  framework : Bool
  max_duration_minutes : ℚ
deriving DecidableEq

/-- The engine identifier chosen from the `framework` flag. -/
def modelUsed (framework : Bool) : String :=
  if framework then "apple_speech" else "local_whisper"

/-- The sentinel error text heads the pipeline sniffs with
`transcription.startswith((...))`. -/
def errorSentinels : List String :=
  ["Transcription error:", "Recognition failed:", "Speech recognition not available"]

/-- List-of-characters head test (Python `str.startswith` for one head). -/
def strStartsWith : List Char → List Char → Bool
  | [], _ => true
  | _ :: _, [] => false
  | p :: ps, c :: cs => if p = c then strStartsWith ps cs else false

/-- Python `transcription.startswith((s1, s2, s3))` over the sentinel
tuple. -/
def startsWithAnySentinel (t : String) : Bool :=
  errorSentinels.any (fun p => strStartsWith p.data t.data)

/-- `self.recordings_base / memo.f_path` rendered as a string. -/
def fullPathOf (recordings_base f_path : String) : String :=
  ⟨pathJoin recordings_base.data f_path.data⟩

/-- The duration-gate message; the two interpolated numbers of the f-string
are abstracted away since no claim depends on the digits. -/
def skippedTooLongMsg : String := "Skipped: too long"

/-- The lenient missing-file message (a literal in the source). -/
def skippingNotFoundMsg : String := "skipping: file not found, may not be synced?"

/-- The strict missing-file message. -/
def fileNotFoundMsg (full_path : String) : String :=
  "File not found: " ++ full_path ++ ", may not be synced"

/-- One iteration of the `organise_memos` loop, mirroring the source
branch for branch: duration gate, cache gate, existence gate,
transcription attempt (or the not-requested tail). -/
def stepMemo (env : OrganiserEnv) (base : String) (args : OrganiseArgs)
    (memo : VoiceMemoFile) (st : LoopState) : LoopState :=
  let output_file_path := generate_output_path memo
  if memo.duration_seconds / 60 > args.max_duration_minutes then
    { st with
      organised := st.organised ++
        [⟨memo.f_path, memo.plain_title, memo.memo_folder, memo.uuid,
          skippedTooLongMsg, "skipped", some memo.recording_date⟩]
      events := st.events ++
        (if args.transcribe then
          [DbEvent.saveRec
            { uuid := memo.uuid, plain_title := memo.plain_title,
              folder_name := memo.memo_folder, file_path := memo.f_path,
              output_file_path := output_file_path,
              transcription := skippedTooLongMsg, status := "skipped",
              duration_seconds := some memo.duration_seconds,
              recording_date := some memo.recording_date,
              processed_at := some env.nowIso }]
        else [])
      skipped_count := st.skipped_count + (if args.transcribe then 1 else 0) }
  else
    let full_path := fullPathOf base memo.f_path
    match (if args.transcribe && env.isFileProcessed memo.uuid full_path then
        env.getTranscription memo.uuid else none) with
    | some existing_record =>
      { st with
        organised := st.organised ++
          [⟨existing_record.file_path, existing_record.plain_title,
            existing_record.folder_name, existing_record.uuid,
            existing_record.transcription, existing_record.status,
            existing_record.recording_date⟩]
        success_count := st.success_count +
          (if existing_record.status = "success" then 1 else 0)
        failed_count := st.failed_count +
          (if existing_record.status = "failed" then 1 else 0)
        skipped_count := st.skipped_count +
          (if existing_record.status ≠ "success" ∧ existing_record.status ≠ "failed"
            then 1 else 0) }
    | none =>
      if ¬ env.fileExists full_path then
        if args.skip_missing then
          { st with
            organised := st.organised ++
              [⟨full_path, memo.plain_title, memo.memo_folder, memo.uuid,
                skippingNotFoundMsg, "skipped", some memo.recording_date⟩]
            events := st.events ++
              (if args.transcribe then
                [DbEvent.saveRec
                  { uuid := memo.uuid, plain_title := memo.plain_title,
                    folder_name := memo.memo_folder, file_path := memo.f_path,
                    output_file_path := output_file_path,
                    transcription := skippingNotFoundMsg, status := "skipped",
                    duration_seconds := some memo.duration_seconds,
                    recording_date := some memo.recording_date,
                    processed_at := some env.nowIso }]
              else [])
            skipped_count := st.skipped_count + (if args.transcribe then 1 else 0) }
        else
          { st with
            organised := st.organised ++
              [⟨full_path, memo.plain_title, memo.memo_folder, memo.uuid,
                fileNotFoundMsg full_path, "failed", some memo.recording_date⟩]
            events := st.events ++
              (if args.transcribe then
                [DbEvent.saveRec
                  { uuid := memo.uuid, plain_title := memo.plain_title,
                    folder_name := memo.memo_folder, file_path := memo.f_path,
                    output_file_path := output_file_path,
                    transcription := fileNotFoundMsg full_path, status := "failed",
                    error_message := some (fileNotFoundMsg full_path),
                    duration_seconds := some memo.duration_seconds,
                    recording_date := some memo.recording_date,
                    processed_at := some env.nowIso }]
              else [])
            failed_count := st.failed_count + (if args.transcribe then 1 else 0) }
      else
        if args.transcribe then
          let tr := env.transcribeFile full_path
          let ttime := env.transcribeTime full_path
          let transcription :=
            match tr with
            | TranscribeResult.ok text => text
            | TranscribeResult.exc msg => "Transcription error: " ++ msg
          let failed : Bool :=
            match tr with
            | TranscribeResult.ok text => startsWithAnySentinel text
            | TranscribeResult.exc _ => true
          let status := if failed then "failed" else "success"
          { st with
            organised := st.organised ++
              [⟨full_path, memo.plain_title, memo.memo_folder, memo.uuid,
                transcription, status, some memo.recording_date⟩]
            events := st.events ++
              [DbEvent.saveRec
                { uuid := memo.uuid, plain_title := memo.plain_title,
                  folder_name := memo.memo_folder, file_path := memo.f_path,
                  output_file_path := output_file_path,
                  transcription := transcription, status := status,
                  error_message := if failed then some transcription else none,
                  duration_seconds := some memo.duration_seconds,
                  recording_date := some memo.recording_date,
                  processed_at := some env.nowIso,
                  file_hash := env.fileHash full_path,
                  model_used := some (modelUsed args.framework),
                  processing_time_seconds := some ttime }]
            success_count := st.success_count + (if failed then 0 else 1)
            failed_count := st.failed_count + (if failed then 1 else 0)
            processed_count := st.processed_count + 1
            total_processing_time := st.total_processing_time + ttime }
        else
          { st with
            organised := st.organised ++
              [⟨full_path, memo.plain_title, memo.memo_folder, memo.uuid,
                "[Transcription not requested]", "skipped", some memo.recording_date⟩]
            skipped_count := st.skipped_count + 1 }

/-- The `for memo in iterator` loop of `organise_memos`. -/
def organiseLoop (env : OrganiserEnv) (base : String) (args : OrganiseArgs) :
    List VoiceMemoFile → LoopState → LoopState
  | [], st => st
  | m :: ms, st => organiseLoop env base args ms (stepMemo env base args m st)

/-- The zeroed loop state before iteration. -/
def initState : LoopState := ⟨[], [], 0, 0, 0, 0, 0⟩

/-- The batch-open trace prefix (`db.start_processing_batch`, emitted only
when transcription is requested). -/
def batchStartEvents (env : OrganiserEnv) (args : OrganiseArgs) (n : Nat) : List DbEvent :=
  if args.transcribe then [DbEvent.startBatch env.batchId n (modelUsed args.framework)] else []

/-- The loop state before iteration: zero counters, batch-open trace. -/
def startState (env : OrganiserEnv) (args : OrganiseArgs) (n : Nat) : LoopState :=
  { initState with events := batchStartEvents env args n }

/-- Embeds `MemoOrganiser.organise_memos`: open a batch when transcription
is requested, run the loop, and close the batch only when transcription
is requested and at least one item reached the transcription attempt. -/
def organise_memos (env : OrganiserEnv) (base : String) (args : OrganiseArgs)
    (memo_files : List VoiceMemoFile) : LoopState :=
  let st1 := organiseLoop env base args memo_files (startState env args memo_files.length)
  if args.transcribe ∧ 0 < st1.processed_count then
    { st1 with
      events := st1.events ++
        [DbEvent.finishBatch env.batchId st1.success_count st1.failed_count
          st1.skipped_count (st1.total_processing_time / st1.processed_count)] }
  else st1

/-- The terminal fate of one item, classified directly from the gates,
independent of the loop bookkeeping. -/
inductive ItemClass where
  | durationSkip
  | cached (status : String)
  | missingSkip
  | missingFail
  | attempted (failed : Bool)
  | notRequested
deriving DecidableEq

/-- Which branch of the loop body an item takes. -/
def classifyMemo (env : OrganiserEnv) (base : String) (args : OrganiseArgs)
    (memo : VoiceMemoFile) : ItemClass :=
  if memo.duration_seconds / 60 > args.max_duration_minutes then ItemClass.durationSkip
  else
    match (if args.transcribe && env.isFileProcessed memo.uuid (fullPathOf base memo.f_path)
        then env.getTranscription memo.uuid else none) with
    | some r => ItemClass.cached r.status
    | none =>
      if ¬ env.fileExists (fullPathOf base memo.f_path) then
        if args.skip_missing then ItemClass.missingSkip else ItemClass.missingFail
      else if args.transcribe then
        ItemClass.attempted
          (match env.transcribeFile (fullPathOf base memo.f_path) with
           | TranscribeResult.ok t => startsWithAnySentinel t
           | TranscribeResult.exc _ => true)
      else ItemClass.notRequested

/-- Contribution of one item to the batch success counter. -/
def successDelta : ItemClass → Nat
  | ItemClass.cached s => if s = "success" then 1 else 0
  | ItemClass.attempted failed => if failed then 0 else 1
  | _ => 0

/-- Contribution of one item to the batch failed counter. -/
def failedDelta (args : OrganiseArgs) : ItemClass → Nat
  | ItemClass.cached s => if s = "failed" then 1 else 0
  | ItemClass.missingFail => if args.transcribe then 1 else 0
  | ItemClass.attempted failed => if failed then 1 else 0
  | _ => 0

/-- Contribution of one item to the batch skipped counter (the gate
branches count only when transcription was requested). -/
def skippedDelta (args : OrganiseArgs) : ItemClass → Nat
  | ItemClass.durationSkip => if args.transcribe then 1 else 0
  | ItemClass.cached s => if s ≠ "success" ∧ s ≠ "failed" then 1 else 0
  | ItemClass.missingSkip => if args.transcribe then 1 else 0
  | ItemClass.notRequested => 1
  | _ => 0

/-- Contribution of one item to `processed_count` (only transcription
attempts are timed and counted). -/
def processedDelta : ItemClass → Nat
  | ItemClass.attempted _ => 1
  | _ => 0

/-- Wall time contributed by one item to the timing accumulator. -/
def attemptTime (env : OrganiserEnv) (base : String) (args : OrganiseArgs)
    (memo : VoiceMemoFile) : ℚ :=
  match classifyMemo env base args memo with
  | ItemClass.attempted _ => env.transcribeTime (fullPathOf base memo.f_path)
  | _ => 0

/-- One loop iteration moves every batch counter by exactly its item's
classified contribution. -/
theorem stepMemo_counters (env : OrganiserEnv) (base : String) (args : OrganiseArgs)
    (memo : VoiceMemoFile) (st : LoopState) :
    (stepMemo env base args memo st).success_count =
        st.success_count + successDelta (classifyMemo env base args memo) ∧
    (stepMemo env base args memo st).failed_count =
        st.failed_count + failedDelta args (classifyMemo env base args memo) ∧
    (stepMemo env base args memo st).skipped_count =
        st.skipped_count + skippedDelta args (classifyMemo env base args memo) ∧
    (stepMemo env base args memo st).processed_count =
        st.processed_count + processedDelta (classifyMemo env base args memo) ∧
    (stepMemo env base args memo st).total_processing_time =
        st.total_processing_time + attemptTime env base args memo := by
  by_cases hdur : memo.duration_seconds / 60 > args.max_duration_minutes
  · by_cases htr : args.transcribe <;>
      simp [stepMemo, classifyMemo, attemptTime, hdur, htr, successDelta, failedDelta,
        skippedDelta, processedDelta]
  · by_cases htr : args.transcribe
    · by_cases hpr : env.isFileProcessed memo.uuid (fullPathOf base memo.f_path)
      · rcases hg : env.getTranscription memo.uuid with _ | r
        · by_cases hex : env.fileExists (fullPathOf base memo.f_path)
          · rcases htf : env.transcribeFile (fullPathOf base memo.f_path) with t | m <;>
              simp [stepMemo, classifyMemo, attemptTime, hdur, htr, hpr, hg, hex, htf,
                successDelta, failedDelta, skippedDelta, processedDelta]
          · by_cases hskip : args.skip_missing <;>
              simp [stepMemo, classifyMemo, attemptTime, hdur, htr, hpr, hg, hex, hskip,
                successDelta, failedDelta, skippedDelta, processedDelta]
        · simp [stepMemo, classifyMemo, attemptTime, hdur, htr, hpr, hg,
            successDelta, failedDelta, skippedDelta, processedDelta]
      · by_cases hex : env.fileExists (fullPathOf base memo.f_path)
        · rcases htf : env.transcribeFile (fullPathOf base memo.f_path) with t | m <;>
            simp [stepMemo, classifyMemo, attemptTime, hdur, htr, hpr, hex, htf,
              successDelta, failedDelta, skippedDelta, processedDelta]
        · by_cases hskip : args.skip_missing <;>
            simp [stepMemo, classifyMemo, attemptTime, hdur, htr, hpr, hex, hskip,
              successDelta, failedDelta, skippedDelta, processedDelta]
    · by_cases hex : env.fileExists (fullPathOf base memo.f_path)
      · simp [stepMemo, classifyMemo, attemptTime, hdur, htr, hex,
          successDelta, failedDelta, skippedDelta, processedDelta]
      · by_cases hskip : args.skip_missing <;>
          simp [stepMemo, classifyMemo, attemptTime, hdur, htr, hex, hskip,
            successDelta, failedDelta, skippedDelta, processedDelta]

/-- Recognizer for batch-open events. -/
def isStartEvent : DbEvent → Bool
  | DbEvent.startBatch _ _ _ => true
  | _ => false

/-- Recognizer for batch-close events. -/
def isFinishEvent : DbEvent → Bool
  | DbEvent.finishBatch _ _ _ _ _ => true
  | _ => false

/-- The record-level invariant under discussion: a failed record carries an
error message; a success record carries text that does not begin with a
sentinel error head. -/
def recInvariant (r : TranscriptionRecord) : Prop :=
  (r.status = "failed" → r.error_message.isSome = true) ∧
  (r.status = "success" → startsWithAnySentinel r.transcription = false)

/-- The invariant lifted to store events (vacuous for batch events). -/
def eventInvariant (e : DbEvent) : Prop :=
  ∀ r, e = DbEvent.saveRec r → recInvariant r

/-- Batch-open events satisfy the lifted invariant vacuously. -/
theorem eventInvariant_start (b : String) (t : Nat) (m : String) :
    eventInvariant (DbEvent.startBatch b t m) := by
  intro r hr
  cases hr

/-- Batch-close events satisfy the lifted invariant vacuously. -/
theorem eventInvariant_finish (b : String) (s f k : Nat) (a : ℚ) :
    eventInvariant (DbEvent.finishBatch b s f k a) := by
  intro r hr
  cases hr

/-- Transfer of the invariant to a save event. -/
theorem eventInvariant_save {rec : TranscriptionRecord} (h : recInvariant rec) :
    eventInvariant (DbEvent.saveRec rec) := by
  intro r hr
  cases hr
  exact h

/-- Literal status strings are distinct. -/
theorem skipped_ne_failed : ¬("skipped" : String) = "failed" := by decide

/-- Literal status strings are distinct. -/
theorem skipped_ne_success : ¬("skipped" : String) = "success" := by decide

/-- Literal status strings are distinct. -/
theorem failed_ne_success : ¬("failed" : String) = "success" := by decide

/-- Literal status strings are distinct. -/
theorem success_ne_failed : ¬("success" : String) = "failed" := by decide

/-- One loop iteration appends only save events: any event filter that
ignores saves is untouched. -/
theorem stepMemo_events_filter (p : DbEvent → Bool)
    (hp : ∀ r, p (DbEvent.saveRec r) = false) (env : OrganiserEnv) (base : String)
    (args : OrganiseArgs) (memo : VoiceMemoFile) (st : LoopState) :
    ((stepMemo env base args memo st).events.filter p) = st.events.filter p := by
  by_cases hdur : memo.duration_seconds / 60 > args.max_duration_minutes
  · by_cases htr : args.transcribe <;>
      simp [stepMemo, hdur, htr, List.filter_append, hp]
  · by_cases htr : args.transcribe
    · by_cases hpr : env.isFileProcessed memo.uuid (fullPathOf base memo.f_path)
      · rcases hg : env.getTranscription memo.uuid with _ | r
        · by_cases hex : env.fileExists (fullPathOf base memo.f_path)
          · rcases htf : env.transcribeFile (fullPathOf base memo.f_path) with t | m <;>
              simp [stepMemo, hdur, htr, hpr, hg, hex, htf, List.filter_append, hp]
          · by_cases hskip : args.skip_missing <;>
              simp [stepMemo, hdur, htr, hpr, hg, hex, hskip, List.filter_append, hp]
        · simp [stepMemo, hdur, htr, hpr, hg, List.filter_append, hp]
      · by_cases hex : env.fileExists (fullPathOf base memo.f_path)
        · rcases htf : env.transcribeFile (fullPathOf base memo.f_path) with t | m <;>
            simp [stepMemo, hdur, htr, hpr, hex, htf, List.filter_append, hp]
        · by_cases hskip : args.skip_missing <;>
            simp [stepMemo, hdur, htr, hpr, hex, hskip, List.filter_append, hp]
    · by_cases hex : env.fileExists (fullPathOf base memo.f_path)
      · simp [stepMemo, hdur, htr, hex, List.filter_append, hp]
      · by_cases hskip : args.skip_missing <;>
          simp [stepMemo, hdur, htr, hex, hskip, List.filter_append, hp]

/-- Every event present after one loop iteration was either already in the
trace or is a save event satisfying the record invariant. -/
theorem stepMemo_events_saved (env : OrganiserEnv) (base : String)
    (args : OrganiseArgs) (memo : VoiceMemoFile) (st : LoopState) :
    ∀ e ∈ (stepMemo env base args memo st).events, e ∈ st.events ∨ eventInvariant e := by
  intro e he
  by_cases hdur : memo.duration_seconds / 60 > args.max_duration_minutes
  · by_cases htr : args.transcribe
    · simp [stepMemo, hdur, htr] at he
      rcases he with he | he
      · exact Or.inl he
      · refine Or.inr (he ▸ eventInvariant_save ⟨?_, ?_⟩)
        · intro hst
          exact absurd hst skipped_ne_failed
        · intro hst
          exact absurd hst skipped_ne_success
    · simp [stepMemo, hdur, htr] at he
      exact Or.inl he
  · by_cases htr : args.transcribe
    · by_cases hpr : env.isFileProcessed memo.uuid (fullPathOf base memo.f_path)
      · rcases hg : env.getTranscription memo.uuid with _ | r
        · by_cases hex : env.fileExists (fullPathOf base memo.f_path)
          · rcases htf : env.transcribeFile (fullPathOf base memo.f_path) with t | m
            · by_cases hs : startsWithAnySentinel t
              · simp [stepMemo, hdur, htr, hpr, hg, hex, htf, hs] at he
                rcases he with he | he
                · exact Or.inl he
                · refine Or.inr (he ▸ eventInvariant_save ⟨fun _ => rfl, ?_⟩)
                  intro hst
                  exact absurd hst failed_ne_success
              · simp [stepMemo, hdur, htr, hpr, hg, hex, htf, hs] at he
                rcases he with he | he
                · exact Or.inl he
                · refine Or.inr (he ▸ eventInvariant_save ⟨?_, fun _ => ?_⟩)
                  · intro hst
                    exact absurd hst success_ne_failed
                  · simpa using hs
            · simp [stepMemo, hdur, htr, hpr, hg, hex, htf] at he
              rcases he with he | he
              · exact Or.inl he
              · refine Or.inr (he ▸ eventInvariant_save ⟨fun _ => rfl, ?_⟩)
                intro hst
                exact absurd hst failed_ne_success
          · by_cases hskip : args.skip_missing
            · simp [stepMemo, hdur, htr, hpr, hg, hex, hskip] at he
              rcases he with he | he
              · exact Or.inl he
              · refine Or.inr (he ▸ eventInvariant_save ⟨?_, ?_⟩)
                · intro hst
                  exact absurd hst skipped_ne_failed
                · intro hst
                  exact absurd hst skipped_ne_success
            · simp [stepMemo, hdur, htr, hpr, hg, hex, hskip] at he
              rcases he with he | he
              · exact Or.inl he
              · refine Or.inr (he ▸ eventInvariant_save ⟨fun _ => rfl, ?_⟩)
                intro hst
                exact absurd hst failed_ne_success
        · simp [stepMemo, hdur, htr, hpr, hg] at he
          exact Or.inl he
      · by_cases hex : env.fileExists (fullPathOf base memo.f_path)
        · rcases htf : env.transcribeFile (fullPathOf base memo.f_path) with t | m
          · by_cases hs : startsWithAnySentinel t
            · simp [stepMemo, hdur, htr, hpr, hex, htf, hs] at he
              rcases he with he | he
              · exact Or.inl he
              · refine Or.inr (he ▸ eventInvariant_save ⟨fun _ => rfl, ?_⟩)
                intro hst
                exact absurd hst failed_ne_success
            · simp [stepMemo, hdur, htr, hpr, hex, htf, hs] at he
              rcases he with he | he
              · exact Or.inl he
              · refine Or.inr (he ▸ eventInvariant_save ⟨?_, fun _ => ?_⟩)
                · intro hst
                  exact absurd hst success_ne_failed
                · simpa using hs
          · simp [stepMemo, hdur, htr, hpr, hex, htf] at he
            rcases he with he | he
            · exact Or.inl he
            · refine Or.inr (he ▸ eventInvariant_save ⟨fun _ => rfl, ?_⟩)
              intro hst
              exact absurd hst failed_ne_success
        · by_cases hskip : args.skip_missing
          · simp [stepMemo, hdur, htr, hpr, hex, hskip] at he
            rcases he with he | he
            · exact Or.inl he
            · refine Or.inr (he ▸ eventInvariant_save ⟨?_, ?_⟩)
              · intro hst
                exact absurd hst skipped_ne_failed
              · intro hst
                exact absurd hst skipped_ne_success
          · simp [stepMemo, hdur, htr, hpr, hex, hskip] at he
            rcases he with he | he
            · exact Or.inl he
            · refine Or.inr (he ▸ eventInvariant_save ⟨fun _ => rfl, ?_⟩)
              intro hst
              exact absurd hst failed_ne_success
    · by_cases hex : env.fileExists (fullPathOf base memo.f_path)
      · simp [stepMemo, hdur, htr, hex] at he
        exact Or.inl he
      · by_cases hskip : args.skip_missing <;> simp [stepMemo, hdur, htr, hex, hskip] at he <;>
          exact Or.inl he

/-- The loop accumulates exactly the classified per-item contributions. -/
theorem organiseLoop_counters (env : OrganiserEnv) (base : String) (args : OrganiseArgs) :
    ∀ (ms : List VoiceMemoFile) (st : LoopState),
      (organiseLoop env base args ms st).success_count =
          st.success_count +
            (ms.map (fun m => successDelta (classifyMemo env base args m))).sum ∧
      (organiseLoop env base args ms st).failed_count =
          st.failed_count +
            (ms.map (fun m => failedDelta args (classifyMemo env base args m))).sum ∧
      (organiseLoop env base args ms st).skipped_count =
          st.skipped_count +
            (ms.map (fun m => skippedDelta args (classifyMemo env base args m))).sum ∧
      (organiseLoop env base args ms st).processed_count =
          st.processed_count +
            (ms.map (fun m => processedDelta (classifyMemo env base args m))).sum ∧
      (organiseLoop env base args ms st).total_processing_time =
          st.total_processing_time + (ms.map (fun m => attemptTime env base args m)).sum := by
  intro ms
  induction ms with
  | nil => intro st; simp [organiseLoop]
  | cons m ms ih =>
    intro st
    obtain ⟨h1, h2, h3, h4, h5⟩ := ih (stepMemo env base args m st)
    obtain ⟨s1, s2, s3, s4, s5⟩ := stepMemo_counters env base args m st
    refine ⟨?_, ?_, ?_, ?_, ?_⟩
    · simp only [organiseLoop, List.map_cons, List.sum_cons]
      rw [h1, s1]
      omega
    · simp only [organiseLoop, List.map_cons, List.sum_cons]
      rw [h2, s2]
      omega
    · simp only [organiseLoop, List.map_cons, List.sum_cons]
      rw [h3, s3]
      omega
    · simp only [organiseLoop, List.map_cons, List.sum_cons]
      rw [h4, s4]
      omega
    · simp only [organiseLoop, List.map_cons, List.sum_cons]
      rw [h5, s5]
      ring

/-- The loop never emits batch events: filters that ignore saves see the
trace unchanged. -/
theorem organiseLoop_events_filter (env : OrganiserEnv) (base : String)
    (args : OrganiseArgs) (p : DbEvent → Bool)
    (hp : ∀ r, p (DbEvent.saveRec r) = false) :
    ∀ (ms : List VoiceMemoFile) (st : LoopState),
      ((organiseLoop env base args ms st).events.filter p) = st.events.filter p := by
  intro ms
  induction ms with
  | nil => intro st; simp [organiseLoop]
  | cons m ms ih =>
    intro st
    simp only [organiseLoop]
    rw [ih, stepMemo_events_filter p hp]

/-- The loop preserves the record invariant over the whole trace. -/
theorem organiseLoop_events_invariant (env : OrganiserEnv) (base : String)
    (args : OrganiseArgs) :
    ∀ (ms : List VoiceMemoFile) (st : LoopState),
      (∀ e ∈ st.events, eventInvariant e) →
      ∀ e ∈ (organiseLoop env base args ms st).events, eventInvariant e := by
  intro ms
  induction ms with
  | nil =>
    intro st h
    simpa [organiseLoop] using h
  | cons m ms ih =>
    intro st h
    simp only [organiseLoop]
    refine ih _ ?_
    intro e he
    rcases stepMemo_events_saved env base args m st e he with h' | h'
    · exact h e h'
    · exact h'

/-- The final trace is the loop trace plus, possibly, one batch-close
event carrying the final counters. -/
theorem organise_memos_events (env : OrganiserEnv) (base : String) (args : OrganiseArgs)
    (memos : List VoiceMemoFile) :
    (organise_memos env base args memos).events =
      (organiseLoop env base args memos (startState env args memos.length)).events ++
        (if args.transcribe ∧
            0 < (organiseLoop env base args memos (startState env args memos.length)).processed_count
        then
          [DbEvent.finishBatch env.batchId
            (organiseLoop env base args memos (startState env args memos.length)).success_count
            (organiseLoop env base args memos (startState env args memos.length)).failed_count
            (organiseLoop env base args memos (startState env args memos.length)).skipped_count
            ((organiseLoop env base args memos (startState env args memos.length)).total_processing_time /
              (organiseLoop env base args memos (startState env args memos.length)).processed_count)]
        else []) := by
  simp only [organise_memos]
  split_ifs with hc
  · rfl
  · simp

/-- C3 amended: a batch-open event is recorded exactly when transcription
is requested, and a batch-close event is recorded after the loop if and
only if, additionally, at least one item reached the transcription
attempt; when it is recorded it carries the classified aggregate
success/failed/skipped counts and the mean time over attempted items. -/
theorem c3_batch_open_close (env : OrganiserEnv) (base : String) (args : OrganiseArgs)
    (memos : List VoiceMemoFile) :
    ((organise_memos env base args memos).events.filter (fun e => isStartEvent e) =
        if args.transcribe then
          [DbEvent.startBatch env.batchId memos.length (modelUsed args.framework)]
        else []) ∧
    ((organise_memos env base args memos).events.filter (fun e => isFinishEvent e) =
      if args.transcribe ∧
          0 < (memos.map (fun m => processedDelta (classifyMemo env base args m))).sum then
        [DbEvent.finishBatch env.batchId
          (memos.map (fun m => successDelta (classifyMemo env base args m))).sum
          (memos.map (fun m => failedDelta args (classifyMemo env base args m))).sum
          (memos.map (fun m => skippedDelta args (classifyMemo env base args m))).sum
          ((memos.map (fun m => attemptTime env base args m)).sum /
            (((memos.map (fun m => processedDelta (classifyMemo env base args m))).sum : Nat) : ℚ))]
      else []) := by
  have hps : ∀ r, (fun e => isStartEvent e) (DbEvent.saveRec r) = false := fun _ => rfl
  have hpf : ∀ r, (fun e => isFinishEvent e) (DbEvent.saveRec r) = false := fun _ => rfl
  obtain ⟨l1, l2, l3, l4, l5⟩ :=
    organiseLoop_counters env base args memos (startState env args memos.length)
  have hz : ∀ n : Nat, (startState env args n).success_count = 0 ∧
      (startState env args n).failed_count = 0 ∧ (startState env args n).skipped_count = 0 ∧
      (startState env args n).processed_count = 0 ∧
      (startState env args n).total_processing_time = 0 :=
    fun _ => ⟨rfl, rfl, rfl, rfl, rfl⟩
  obtain ⟨z1, z2, z3, z4, z5⟩ := hz memos.length
  rw [z1, Nat.zero_add] at l1
  rw [z2, Nat.zero_add] at l2
  rw [z3, Nat.zero_add] at l3
  rw [z4, Nat.zero_add] at l4
  rw [z5, zero_add] at l5
  have hfs := organiseLoop_events_filter env base args _ hps memos
    (startState env args memos.length)
  have hff := organiseLoop_events_filter env base args _ hpf memos
    (startState env args memos.length)
  have hev := organise_memos_events env base args memos
  have hE0s : (startState env args memos.length).events.filter (fun e => isStartEvent e) =
      if args.transcribe then
        [DbEvent.startBatch env.batchId memos.length (modelUsed args.framework)]
      else [] := by
    by_cases ht : args.transcribe <;>
      simp [startState, batchStartEvents, initState, ht, isStartEvent]
  have hE0f : (startState env args memos.length).events.filter (fun e => isFinishEvent e) =
      [] := by
    by_cases ht : args.transcribe <;>
      simp [startState, batchStartEvents, initState, ht, isFinishEvent]
  constructor
  · rw [hev, List.filter_append, hfs, hE0s]
    have h2 : ((if args.transcribe ∧
        0 < (organiseLoop env base args memos (startState env args memos.length)).processed_count
        then
          [DbEvent.finishBatch env.batchId
            (organiseLoop env base args memos (startState env args memos.length)).success_count
            (organiseLoop env base args memos (startState env args memos.length)).failed_count
            (organiseLoop env base args memos (startState env args memos.length)).skipped_count
            ((organiseLoop env base args memos
                (startState env args memos.length)).total_processing_time /
              (organiseLoop env base args memos
                (startState env args memos.length)).processed_count)]
        else []).filter (fun e => isStartEvent e)) = [] := by
      split_ifs <;> rfl
    rw [h2, List.append_nil]
  · rw [hev, List.filter_append, hff, hE0f, List.nil_append]
    by_cases hc : args.transcribe ∧
        0 < (organiseLoop env base args memos (startState env args memos.length)).processed_count
    · rw [if_pos hc, if_pos (by rw [← l4]; exact hc)]
      rw [l1, l2, l3, l4, l5]
      rfl
    · rw [if_neg hc, if_neg (by rw [← l4]; exact hc)]
      rfl

/-- A deterministic collaborator environment: no cache hits, every file
present, transcriber returning a fixed text in two seconds. -/
def constEnv (txt : String) : OrganiserEnv :=
  { isFileProcessed := fun _ _ => false
    getTranscription := fun _ => none
    fileExists := fun _ => true
    transcribeFile := fun _ => TranscribeResult.ok txt
    fileHash := fun _ => none
    transcribeTime := fun _ => 2
    nowIso := "2026-01-02T03:04:05"
    batchId := "batch-0001" }

/-- The keyword defaults of `organise_memos`. -/
def defaultArgs : OrganiseArgs := ⟨true, true, true, 8⟩

/-- A ten-minute item, stopped by the eight-minute duration gate. -/
def longMemo : VoiceMemoFile :=
  { uuid := "u-long", plain_title := "Long memo", memo_folder := "Notes",
    f_path := "r/long.m4a", duration_seconds := 600, recording_date := "2025-01-01" }

/-- A one-minute item that passes every gate. -/
def shortMemo : VoiceMemoFile :=
  { uuid := "u1", plain_title := "Note", memo_folder := "Inbox",
    f_path := "r/u1.m4a", duration_seconds := 60, recording_date := "2025-05-05" }

/-- C3 counterexample: with transcription requested and the single item
resolved at the duration gate, a batch row is opened but never closed
(the close call is guarded by `processed_count > 0`), refuting "closed
after the loop regardless of how the individual items were resolved". -/
theorem c3_counterexample :
    ((organise_memos (constEnv "hello") "base" defaultArgs [longMemo]).events.countP
        (fun e => isStartEvent e)) = 1 ∧
    ((organise_memos (constEnv "hello") "base" defaultArgs [longMemo]).events.countP
        (fun e => isFinishEvent e)) = 0 := by
  have hgate : ((600 : ℚ) / 60 > (8 : ℚ)) = True := by norm_num
  constructor <;>
    simp [organise_memos, organiseLoop, stepMemo, startState, batchStartEvents, initState,
      constEnv, defaultArgs, longMemo, hgate, isStartEvent, isFinishEvent]

/-- C4 amended: every record the pipeline persists satisfies: status
`failed` implies a non-null error message, and status `success` implies
the transcription text is the collaborator's returned text, which never
begins with a sentinel error head but may be empty. -/
theorem c4_persisted_record_invariant (env : OrganiserEnv) (base : String)
    (args : OrganiseArgs) (memos : List VoiceMemoFile) :
    ∀ e ∈ (organise_memos env base args memos).events, ∀ r, e = DbEvent.saveRec r →
      (r.status = "failed" → r.error_message.isSome = true) ∧
      (r.status = "success" → startsWithAnySentinel r.transcription = false) := by
  have hbase : ∀ e ∈ (startState env args memos.length).events, eventInvariant e := by
    intro e he
    by_cases ht : args.transcribe
    · simp [startState, batchStartEvents, initState, ht] at he
      exact he ▸ eventInvariant_start _ _ _
    · simp [startState, batchStartEvents, initState, ht] at he
  have hloop := organiseLoop_events_invariant env base args memos
    (startState env args memos.length) hbase
  intro e he
  rw [organise_memos_events] at he
  rcases List.mem_append.mp he with he | he
  · exact hloop e he
  · by_cases hc : args.transcribe ∧
        0 < (organiseLoop env base args memos (startState env args memos.length)).processed_count
    · rw [if_pos hc] at he
      simp at he
      exact he ▸ eventInvariant_finish _ _ _ _ _
    · rw [if_neg hc] at he
      simp at he

/-- The record persisted in the witness run below. -/
def c4WitnessRec : TranscriptionRecord :=
  { uuid := "u1", plain_title := "Note", folder_name := "Inbox",
    file_path := "r/u1.m4a", output_file_path := "Inbox/Note.txt",
    transcription := "Hello there", status := "success",
    error_message := none, duration_seconds := some 60,
    recording_date := some "2025-05-05", processed_at := some "2026-01-02T03:04:05",
    file_hash := none, model_used := some "apple_speech",
    processing_time_seconds := some 2 }

/-- Witness for C4: the record the pipeline persists for a one-minute item
with collaborator text "Hello there" satisfies the amended invariant. -/
theorem c4_persisted_record_invariant_witness :
    DbEvent.saveRec c4WitnessRec ∈
        (organise_memos (constEnv "Hello there") "base" defaultArgs [shortMemo]).events ∧
    ((c4WitnessRec.status = "failed" → c4WitnessRec.error_message.isSome = true) ∧
      (c4WitnessRec.status = "success" →
        startsWithAnySentinel c4WitnessRec.transcription = false)) := by
  have hmem : DbEvent.saveRec c4WitnessRec ∈
      (organise_memos (constEnv "Hello there") "base" defaultArgs [shortMemo]).events := by
    have hgate : ((60 : ℚ) / 60 > (8 : ℚ)) = False := by norm_num
    have hsent : startsWithAnySentinel "Hello there" = false := by decide
    have hgen : generate_output_path shortMemo = "Inbox/Note.txt" := by decide
    simp [organise_memos, organiseLoop, stepMemo, startState, batchStartEvents, initState,
      constEnv, defaultArgs, shortMemo, hgate, hsent, hgen, c4WitnessRec]
    exact ⟨by decide, rfl⟩
  exact ⟨hmem,
    c4_persisted_record_invariant (constEnv "Hello there") "base" defaultArgs [shortMemo]
      (DbEvent.saveRec c4WitnessRec) hmem c4WitnessRec rfl⟩

/-- C4 counterexample: a collaborator returning the empty string makes the
pipeline persist a record with status `success` and empty transcription
text, refuting "status success implies non-empty transcription text for
every possible collaborator text". -/
theorem c4_counterexample :
    ((organise_memos (constEnv "") "base" defaultArgs [shortMemo]).events.filterMap
        (fun e =>
          match e with
          | DbEvent.saveRec r => some (r.status, r.transcription)
          | _ => none)) = [("success", "")] := by
  have hgate : ((60 : ℚ) / 60 > (8 : ℚ)) = False := by norm_num
  have hsent : startsWithAnySentinel "" = false := by decide
  simp [organise_memos, organiseLoop, stepMemo, startState, batchStartEvents, initState,
    constEnv, defaultArgs, shortMemo, hgate, hsent]

/-- Python `Path(name).stem`-style suffix removal used by `with_suffix`:
the suffix is the final dot-segment of the last component, provided the
dot is neither the component's first nor its last character. -/
def pyStem (name : List Char) : List Char :=
  let rafter := name.reverse.takeWhile (fun c => c ≠ '.')
  if rafter.length = name.length then name
  else
    let i := name.length - 1 - rafter.length
    if 0 < i ∧ 0 < rafter.length then name.take i else name

/-- Python `Path(p).with_suffix(suffix)`: replace (or append, when there
is none) the suffix of the last path component. -/
def pyWithSuffix (p suffix : List Char) : List Char :=
  let name := (p.reverse.takeWhile (fun c => c ≠ '/')).reverse
  let dir := (p.reverse.dropWhile (fun c => c ≠ '/')).reverse
  dir ++ pyStem name ++ suffix

/-- The extension chosen by `export_transcriptions`'s `format_map` with
its `.txt` default. -/
def formatExtOf (format : String) : String :=
  if format = "md" then ".md"
  else if format = "txt" then ".txt"
  else if format = "json" then ".json"
  else ".txt"

/-- Embeds `MemoOrganiser._format_text` (transcription body only). -/
def format_text (record : TranscriptionRecord) : String := record.transcription

/-- The full target path of one record:
`output_base / record.output_file_path.with_suffix('').with_suffix(ext)`. -/
def exportPathOf (output_base file_ext : String) (record : TranscriptionRecord) : String :=
  ⟨pathJoin output_base.data (pyWithSuffix (pyWithSuffix record.output_file_path.data [])
    file_ext.data)⟩

/-- The collaborators of `export_transcriptions`, abstracted as
deterministic oracles: directory creation, file write, ISO-timestamp
parsing and the SHA-256 content fingerprint. -/
structure ExportEnv where
  mkdirOk : String → Bool
  writeOk : String → Bool
  parseIso : String → Option ℚ
  hashFn : String → String

/-- The statistics dictionary returned by `export_transcriptions`. -/
structure ExportStats where
  total : Nat
  exported : Nat
  skipped : Nat
  failed : Nat
deriving DecidableEq

/-- A pure filesystem snapshot: path to (content, mtime). -/
def fsWrite (fs : String → Option (String × ℚ)) (p content : String) (t : ℚ) :
    String → Option (String × ℚ) :=
  fun q => if q = p then some (content, t) else fs q

/-- The `_should_export_file` call made for one record against a
filesystem snapshot (existence, content hash and mtime all read from the
snapshot; the stored timestamp is `record.processed_at or ''`). -/
def exportDecision (env : ExportEnv) (output_base format : String)
    (fmt : TranscriptionRecord → String) (fs : String → Option (String × ℚ))
    (record : TranscriptionRecord) (force : Bool) : Bool × String :=
  let p := exportPathOf output_base (formatExtOf format) record
  should_export_file env.hashFn env.parseIso (fs p).isSome
    ((fs p).map (fun e => env.hashFn e.1)) ((fs p).map (fun e => e.2))
    (fmt record) (record.processed_at.getD "") force

/-- One iteration of the `export_transcriptions` loop: format (a pure
total function here, so the format-error branch of the source cannot
fire), decide, then mkdir and write through the oracles, recording the
outcome in the statistics. -/
def exportStep (env : ExportEnv) (output_base format : String)
    (fmt : TranscriptionRecord → String) (force : Bool) (tNow : ℚ)
    (acc : ExportStats × (String → Option (String × ℚ)))
    (record : TranscriptionRecord) : ExportStats × (String → Option (String × ℚ)) :=
  let p := exportPathOf output_base (formatExtOf format) record
  let content := fmt record
  let dec := exportDecision env output_base format fmt acc.2 record force
  if ¬ dec.1 then ({ acc.1 with skipped := acc.1.skipped + 1 }, acc.2)
  else if ¬ env.mkdirOk p then ({ acc.1 with failed := acc.1.failed + 1 }, acc.2)
  else if env.writeOk p then
    ({ acc.1 with exported := acc.1.exported + 1 }, fsWrite acc.2 p content tNow)
  else ({ acc.1 with failed := acc.1.failed + 1 }, acc.2)

/-- Embeds `MemoOrganiser.export_transcriptions` over a given candidate
record list (the `only_unexported`/`status_filter` selection is the
caller's query): early return on an empty list, else fold the per-record
loop over statistics and filesystem. -/
def export_transcriptions (env : ExportEnv) (output_base : String)
    (records : List TranscriptionRecord) (format : String)
    (fmt : TranscriptionRecord → String) (force : Bool) (tNow : ℚ)
    (fs0 : String → Option (String × ℚ)) :
    ExportStats × (String → Option (String × ℚ)) :=
  if records = [] then (⟨0, 0, 0, 0⟩, fs0)
  else records.foldl (exportStep env output_base format fmt force tNow)
    (⟨records.length, 0, 0, 0⟩, fs0)

/-- The export decision of a record only reads the snapshot at the
record's own target path. -/
theorem exportDecision_congr (env : ExportEnv) (output_base format : String)
    (fmt : TranscriptionRecord → String) (record : TranscriptionRecord) (force : Bool)
    {fs fs' : String → Option (String × ℚ)}
    (h : fs (exportPathOf output_base (formatExtOf format) record) =
      fs' (exportPathOf output_base (formatExtOf format) record)) :
    exportDecision env output_base format fmt fs record force =
      exportDecision env output_base format fmt fs' record force := by
  simp only [exportDecision]
  rw [h]

/-- One export iteration leaves the snapshot unchanged away from its
record's target path. -/
theorem exportStep_fs_frame (env : ExportEnv) (output_base format : String)
    (fmt : TranscriptionRecord → String) (force : Bool) (tNow : ℚ)
    (acc : ExportStats × (String → Option (String × ℚ)))
    (record : TranscriptionRecord) (q : String)
    (hq : q ≠ exportPathOf output_base (formatExtOf format) record) :
    ((exportStep env output_base format fmt force tNow acc record).2) q = acc.2 q := by
  simp only [exportStep]
  split_ifs <;> simp [fsWrite, hq]

/-- The export fold leaves the snapshot unchanged at paths owned by none
of its records. -/
theorem exportFold_frame (env : ExportEnv) (output_base format : String)
    (fmt : TranscriptionRecord → String) (force : Bool) (tNow : ℚ) :
    ∀ (records : List TranscriptionRecord)
      (acc : ExportStats × (String → Option (String × ℚ))) (q : String),
      (∀ r ∈ records, q ≠ exportPathOf output_base (formatExtOf format) r) →
      ((records.foldl (exportStep env output_base format fmt force tNow) acc).2) q =
        acc.2 q := by
  intro records
  induction records with
  | nil => intro acc q _; rfl
  | cons r rs ih =>
    intro acc q h
    rw [List.foldl_cons, ih _ q (fun x hx => h x (List.mem_cons_of_mem _ hx))]
    exact exportStep_fs_frame env output_base format fmt force tNow acc r q
      (h r (List.mem_cons_self _ _))

/-- Against a snapshot holding exactly the freshly rendered content with a
write time no older than the stored timestamp, the decision (without
force) is skip. -/
theorem decision_after_write (env : ExportEnv) (output_base format : String)
    (fmt : TranscriptionRecord → String) (record : TranscriptionRecord) (tNow : ℚ)
    (ht : ∀ d, env.parseIso (record.processed_at.getD "") = some d → d ≤ tNow)
    (fs : String → Option (String × ℚ))
    (hfs : fs (exportPathOf output_base (formatExtOf format) record) =
      some (fmt record, tNow)) :
    (exportDecision env output_base format fmt fs record false).1 = false := by
  unfold exportDecision should_export_file
  by_cases hts : record.processed_at.getD "" = ""
  · simp [hfs, hts]
  · rcases hp : env.parseIso (record.processed_at.getD "") with _ | d
    · simp [hfs, hts, hp]
    · have hd : ¬ (tNow < d) := not_lt.mpr (ht d hp)
      simp [hfs, hts, hp, hd]

/-- After its own iteration (with working directory creation and write),
a record's decision against the resulting snapshot is skip. -/
theorem exportStep_settles (env : ExportEnv) (output_base format : String)
    (fmt : TranscriptionRecord → String) (tNow : ℚ)
    (acc : ExportStats × (String → Option (String × ℚ)))
    (record : TranscriptionRecord)
    (hmk : env.mkdirOk (exportPathOf output_base (formatExtOf format) record) = true)
    (hwr : env.writeOk (exportPathOf output_base (formatExtOf format) record) = true)
    (ht : ∀ d, env.parseIso (record.processed_at.getD "") = some d → d ≤ tNow) :
    (exportDecision env output_base format fmt
      ((exportStep env output_base format fmt false tNow acc record).2)
      record false).1 = false := by
  by_cases hdec : (exportDecision env output_base format fmt acc.2 record false).1 = true
  · have hstep : (exportStep env output_base format fmt false tNow acc record).2 =
        fsWrite acc.2 (exportPathOf output_base (formatExtOf format) record)
          (fmt record) tNow := by
      simp only [exportStep]
      rw [if_neg (by simp [hdec]), if_neg (by simp [hmk]), if_pos hwr]
    rw [hstep]
    exact decision_after_write env output_base format fmt record tNow ht _ (by simp [fsWrite])
  · have hstep : (exportStep env output_base format fmt false tNow acc record).2 = acc.2 := by
      simp only [exportStep]
      rw [if_pos (by simp [hdec])]
    rw [hstep]
    simpa using hdec

/-- After a full export pass with working oracles, distinct target paths
and write times no older than the stored timestamps, every record's
decision against the final snapshot is skip. -/
theorem exportFold_settles (env : ExportEnv) (output_base format : String)
    (fmt : TranscriptionRecord → String) (tNow : ℚ) :
    ∀ (records : List TranscriptionRecord)
      (acc : ExportStats × (String → Option (String × ℚ))),
      List.Pairwise (fun a b => exportPathOf output_base (formatExtOf format) a ≠
        exportPathOf output_base (formatExtOf format) b) records →
      (∀ r ∈ records, env.mkdirOk (exportPathOf output_base (formatExtOf format) r) = true) →
      (∀ r ∈ records, env.writeOk (exportPathOf output_base (formatExtOf format) r) = true) →
      (∀ r ∈ records, ∀ d, env.parseIso (r.processed_at.getD "") = some d → d ≤ tNow) →
      ∀ r ∈ records,
        (exportDecision env output_base format fmt
          ((records.foldl (exportStep env output_base format fmt false tNow) acc).2)
          r false).1 = false := by
  intro records
  induction records with
  | nil => intro acc _ _ _ _ r hr; simp at hr
  | cons r0 rs ih =>
    intro acc hpw hmk hwr ht r hr
    obtain ⟨hhead, hrest⟩ := List.pairwise_cons.mp hpw
    rw [List.foldl_cons]
    rcases List.mem_cons.mp hr with rfl | hr'
    · have hframe : ((rs.foldl (exportStep env output_base format fmt false tNow)
          (exportStep env output_base format fmt false tNow acc r)).2)
            (exportPathOf output_base (formatExtOf format) r) =
          ((exportStep env output_base format fmt false tNow acc r).2)
            (exportPathOf output_base (formatExtOf format) r) :=
        exportFold_frame env output_base format fmt false tNow rs _ _
          (fun x hx => hhead x hx)
      rw [exportDecision_congr env output_base format fmt r false hframe]
      exact exportStep_settles env output_base format fmt tNow acc r
        (hmk r (List.mem_cons_self _ _)) (hwr r (List.mem_cons_self _ _))
        (ht r (List.mem_cons_self _ _))
    · exact ih _ hrest (fun x hx => hmk x (List.mem_cons_of_mem _ hx))
        (fun x hx => hwr x (List.mem_cons_of_mem _ hx))
        (fun x hx => ht x (List.mem_cons_of_mem _ hx)) r hr'

/-- A pass in which every record's decision is skip changes nothing and
counts everything as skipped. -/
theorem exportFold_all_skip (env : ExportEnv) (output_base format : String)
    (fmt : TranscriptionRecord → String) (tNow : ℚ) :
    ∀ (records : List TranscriptionRecord) (stats : ExportStats)
      (fs : String → Option (String × ℚ)),
      (∀ r ∈ records, (exportDecision env output_base format fmt fs r false).1 = false) →
      (records.foldl (exportStep env output_base format fmt false tNow) (stats, fs)) =
        ({ stats with skipped := stats.skipped + records.length }, fs) := by
  intro records
  induction records with
  | nil => intro stats fs _; simp
  | cons r rs ih =>
    intro stats fs h
    rw [List.foldl_cons]
    have hstep : exportStep env output_base format fmt false tNow (stats, fs) r =
        ({ stats with skipped := stats.skipped + 1 }, fs) := by
      simp only [exportStep]
      rw [if_pos (by simp [h r (List.mem_cons_self _ _)])]
    rw [hstep, ih _ _ (fun x hx => h x (List.mem_cons_of_mem _ hx))]
    have harith : stats.skipped + 1 + rs.length = stats.skipped + (rs.length + 1) := by omega
    simp [harith]

/-- A forced pass with working oracles exports every record. -/
theorem exportFold_all_force (env : ExportEnv) (output_base format : String)
    (fmt : TranscriptionRecord → String) (tNow : ℚ) :
    ∀ (records : List TranscriptionRecord) (stats : ExportStats)
      (fs : String → Option (String × ℚ)),
      (∀ r ∈ records, env.mkdirOk (exportPathOf output_base (formatExtOf format) r) = true) →
      (∀ r ∈ records, env.writeOk (exportPathOf output_base (formatExtOf format) r) = true) →
      ((records.foldl (exportStep env output_base format fmt true tNow) (stats, fs)).1).exported =
        stats.exported + records.length := by
  intro records
  induction records with
  | nil => intro stats fs _ _; rfl
  | cons r rs ih =>
    intro stats fs hmk hwr
    rw [List.foldl_cons]
    have hdec : (exportDecision env output_base format fmt fs r true).1 = true := rfl
    have hstep : exportStep env output_base format fmt true tNow (stats, fs) r =
        ({ stats with exported := stats.exported + 1 },
          fsWrite fs (exportPathOf output_base (formatExtOf format) r) (fmt r) tNow) := by
      simp only [exportStep]
      rw [if_neg (by simp [hdec]), if_neg (by simp [hmk r (List.mem_cons_self _ _)]),
        if_pos (hwr r (List.mem_cons_self _ _))]
    rw [hstep, ih _ _ (fun x hx => hmk x (List.mem_cons_of_mem _ hx))
      (fun x hx => hwr x (List.mem_cons_of_mem _ hx))]
    have hexp : ({ stats with exported := stats.exported + 1 } : ExportStats).exported =
        stats.exported + 1 := rfl
    rw [hexp]
    simp only [List.length_cons]
    omega

/-- C8 amended: for record sets whose records map to pairwise-distinct
target paths, with directory creation and writes succeeding and stored
timestamps no newer than the first run's write time, a second
`export_transcriptions` run with `force=False` and no change in between
exports nothing and skips every record, while a `force=True` run exports
every record. -/
theorem c8_export_idempotence (env : ExportEnv) (output_base : String)
    (records : List TranscriptionRecord) (format : String)
    (fmt : TranscriptionRecord → String) (t1 t2 : ℚ)
    (fs0 : String → Option (String × ℚ))
    (hpw : List.Pairwise (fun a b =>
      exportPathOf output_base (formatExtOf format) a ≠
        exportPathOf output_base (formatExtOf format) b) records)
    (hmk : ∀ r ∈ records,
      env.mkdirOk (exportPathOf output_base (formatExtOf format) r) = true)
    (hwr : ∀ r ∈ records,
      env.writeOk (exportPathOf output_base (formatExtOf format) r) = true)
    (htime : ∀ r ∈ records, ∀ d,
      env.parseIso (r.processed_at.getD "") = some d → d ≤ t1) :
    (export_transcriptions env output_base records format fmt false t2
        (export_transcriptions env output_base records format fmt false t1 fs0).2).1.exported
      = 0 ∧
    (export_transcriptions env output_base records format fmt false t2
        (export_transcriptions env output_base records format fmt false t1 fs0).2).1.skipped
      = records.length ∧
    (export_transcriptions env output_base records format fmt true t1 fs0).1.exported
      = records.length := by
  by_cases hnil : records = []
  · subst hnil
    simp [export_transcriptions]
  · have h1 : export_transcriptions env output_base records format fmt false t1 fs0 =
        records.foldl (exportStep env output_base format fmt false t1)
          (⟨records.length, 0, 0, 0⟩, fs0) := by
      simp [export_transcriptions, hnil]
    have hskip : ∀ r ∈ records,
        (exportDecision env output_base format fmt
          ((records.foldl (exportStep env output_base format fmt false t1)
            (⟨records.length, 0, 0, 0⟩, fs0)).2) r false).1 = false :=
      fun r hr => exportFold_settles env output_base format fmt t1 records
        (⟨records.length, 0, 0, 0⟩, fs0) hpw hmk hwr htime r hr
    have h2 : export_transcriptions env output_base records format fmt false t2
        (export_transcriptions env output_base records format fmt false t1 fs0).2 =
        ({ total := records.length, exported := 0, skipped := 0 + records.length,
            failed := 0 },
          (export_transcriptions env output_base records format fmt false t1 fs0).2) := by
      simp only [export_transcriptions, if_neg hnil]
      exact exportFold_all_skip env output_base format fmt t2 records
        ⟨records.length, 0, 0, 0⟩ _ hskip
    refine ⟨?_, ?_, ?_⟩
    · rw [h2]
    · rw [h2]
      simp
    · simp only [export_transcriptions, if_neg hnil]
      rw [exportFold_all_force env output_base format fmt t1 records
        ⟨records.length, 0, 0, 0⟩ fs0 hmk hwr]
      simp

/-- An export environment with perfect oracles: every directory creation
and write succeeds, every timestamp parses to time 0, and the fingerprint
is the content itself (SHA-256 modelled as an injective fingerprint). -/
def c8wEnv : ExportEnv :=
  { mkdirOk := fun _ => true
    writeOk := fun _ => true
    parseIso := fun _ => some 0
    hashFn := fun s => s }

/-- The empty filesystem snapshot. -/
def emptyFS : String → Option (String × ℚ) := fun _ => none

/-- A successful record targeting `F/a.txt`. -/
def c8wRec : TranscriptionRecord :=
  { uuid := "a", plain_title := "A", folder_name := "F",
    file_path := "f", output_file_path := "F/a.txt",
    transcription := "text A", status := "success", processed_at := some "t0" }

/-- Witness for C8 on a single record: second run exports nothing and
skips it; a forced run exports it. -/
theorem c8_export_idempotence_witness :
    (export_transcriptions c8wEnv "out" [c8wRec] "txt" format_text false 7
        (export_transcriptions c8wEnv "out" [c8wRec] "txt" format_text false 5
          emptyFS).2).1.exported = 0 ∧
    (export_transcriptions c8wEnv "out" [c8wRec] "txt" format_text false 7
        (export_transcriptions c8wEnv "out" [c8wRec] "txt" format_text false 5
          emptyFS).2).1.skipped = 1 ∧
    (export_transcriptions c8wEnv "out" [c8wRec] "txt" format_text true 5
        emptyFS).1.exported = 1 :=
  c8_export_idempotence c8wEnv "out" [c8wRec] "txt" format_text 5 7 emptyFS
    (by simp) (by simp [c8wEnv]) (by simp [c8wEnv])
    (fun r hr d hd => by
      have h0 : some (0 : ℚ) = some d := hd
      rw [← Option.some.inj h0]
      norm_num)

/-- Two records sharing the sanitized target path `F/x.txt` but holding
different texts. -/
def c8xRecA : TranscriptionRecord :=
  { uuid := "a", plain_title := "A", folder_name := "F", file_path := "fa",
    output_file_path := "F/x.txt", transcription := "text A", status := "success",
    processed_at := some "t0" }

/-- The second record of the colliding pair. -/
def c8xRecB : TranscriptionRecord :=
  { uuid := "b", plain_title := "B", folder_name := "F", file_path := "fb",
    output_file_path := "F/x.txt", transcription := "text B", status := "success",
    processed_at := some "t0" }

/-- C8 counterexample: two records with the same target path but different
contents make every `force=False` run rewrite both files, so the second
run reports `exported = 2`, not `exported = 0`, although neither the
record set nor the files changed between the runs. -/
theorem c8_counterexample :
    (export_transcriptions c8wEnv "out" [c8xRecA, c8xRecB] "txt" format_text false 7
        (export_transcriptions c8wEnv "out" [c8xRecA, c8xRecB] "txt" format_text false 5
          emptyFS).2).1.exported = 2 := by
  decide

end MemoTranscriber
